import Mathlib

/-!
Verification of the carbon-assets pallet (a fungible carbon-credit asset
ledger).  The development shallowly embeds the pallet's storage model and
dispatchable calls as pure Lean functions over an explicit state record.

Sources of the embedding:
* `src/lib.rs` — the dispatchable calls (`create`, `burn`, `self_burn`,
  `transfer`, `cancel_approval`, …), storage items and events; these are
  translated directly.
* The internal engine (`functions.rs` / `types.rs`: `do_transfer`,
  `decrease_balance`, `do_destroy`, …) is not part of the source tree here;
  those definitions are modelled from the specification (marked
  `Modelled from the spec:` below) and pinned by the behaviour the unit
  tests in `src/tests.rs` observe.

Machine integers: balances and deposits are `u64` in the reference runtime;
they are embedded as `Nat` with explicit saturation / checked arithmetic at
`BMAX = 2^64 - 1`.  Reference counts (`accounts`, `sufficients`,
`approvals`) have no width given by the spec and are embedded as plain
`Nat` with truncated subtraction (which is what saturating decrement means
on values that never exceed the machine width).
-/

namespace CarbonAssets

/-! ## Association-list maps

Storage maps (`StorageMap`, `StorageDoubleMap`, `StorageNMap`) are embedded
as association lists.  `mset` removes every stale binding of the key before
prepending the new one, so maps built from the empty map are duplicate-free
by construction. -/

def mget {K V : Type} [DecidableEq K] : List (K × V) → K → Option V
  | [], _ => none
  | e :: t, k => if e.1 = k then some e.2 else mget t k

def mdel {K V : Type} [DecidableEq K] : List (K × V) → K → List (K × V)
  | [], _ => []
  | e :: t, k => if e.1 = k then mdel t k else e :: mdel t k

def mset {K V : Type} [DecidableEq K] (m : List (K × V)) (k : K) (v : V) :
    List (K × V) :=
  (k, v) :: mdel m k

/-- Decidable equality of call results, for concrete evaluation. -/
instance {E A : Type} [DecidableEq E] [DecidableEq A] :
    DecidableEq (Except E A) := fun x y =>
  match x, y with
  | .ok a, .ok b =>
    if h : a = b then .isTrue (by rw [h])
    else .isFalse (by intro hh; cases hh; exact h rfl)
  | .error a, .error b =>
    if h : a = b then .isTrue (by rw [h])
    else .isFalse (by intro hh; cases hh; exact h rfl)
  | .ok _, .error _ => .isFalse (by intro hh; cases hh)
  | .error _, .ok _ => .isFalse (by intro hh; cases hh)

/-! ## Machine arithmetic -/

/-- Maximum value of the 64-bit balance type. -/
def BMAX : Nat := 2 ^ 64 - 1

/-- Saturating addition at the balance width (`u64::saturating_add`). -/
def satAdd (a b : Nat) : Nat := min (a + b) BMAX

/-- Checked addition at the balance width (`u64::checked_add`). -/
def checkedAdd (a b : Nat) : Option Nat :=
  if a + b ≤ BMAX then some (a + b) else none

/-! ## Data model (`lib.rs` storage items and `types.rs` records)

`AssetId` is an opaque 24-byte identifier with equality only; it is embedded
as `Nat`.  `AccountId` is likewise embedded as `Nat` (the mock runtime uses
`u64` account ids). -/

abbrev AssetId := Nat
abbrev AccountId := Nat

/-- Dispatch origin: the privileged `ForceOrigin` is root (as in the mock
runtime), every other call is signed by an account. -/
inductive Origin : Type
  | root
  | signed (who : AccountId)
deriving Repr, DecidableEq

/-- Typed errors: the pallet's `Error` enum from `lib.rs`, plus the token,
arithmetic, balances-pallet and origin errors that the dispatchables can
surface (`TokenError`, `ArithmeticError`, `InsufficientBalance`,
`BadOrigin`). -/
inductive Err : Type
  | BalanceLow
  | NoAccount
  | NoPermission
  | Unknown
  | Frozen
  | InUse
  | BadWitness
  | MinBalanceZero
  | NoProvider
  | BadMetadata
  | Unapproved
  | WouldDie
  | AlreadyExists
  | NoDeposit
  | WouldBurn
  | NoCustodian
  | NoMetadata
  | CannotChangeAfterMint
  | ErrorCreatingAssetId
  | BelowMinimum
  | CannotCreate
  | UnknownAsset
  | Blocked
  | Overflow
  | Underflow
  | InsufficientBalance
  | BadOrigin
deriving Repr, DecidableEq

/-- Events (`Event` enum of `lib.rs`).  Byte strings are embedded as
`List Nat`. -/
inductive Event : Type
  | Created (assetId : AssetId) (creator : AccountId)
  | Issued (assetId : AssetId) (owner : AccountId) (totalSupply : Nat)
  | Transferred (assetId : AssetId) (source dest : AccountId) (amount : Nat)
  | Burned (assetId : AssetId) (owner : AccountId) (balance : Nat)
  | TeamChanged (assetId : AssetId) (issuer admin freezer : AccountId)
  | OwnerChanged (assetId : AssetId) (owner : AccountId)
  | Frozen (assetId : AssetId) (who : AccountId)
  | Thawed (assetId : AssetId) (who : AccountId)
  | AssetFrozen (assetId : AssetId)
  | AssetThawed (assetId : AssetId)
  | Destroyed (assetId : AssetId)
  | ForceCreated (assetId : AssetId) (owner : AccountId)
  | MetadataSet (assetId : AssetId) (name symbol : List Nat)
      (decimals : Nat) (isFrozen : Bool)
  | MetadataCleared (assetId : AssetId)
  | ApprovedTransfer (assetId : AssetId) (source delegate : AccountId)
      (amount : Nat)
  | ApprovalCancelled (assetId : AssetId) (owner delegate : AccountId)
  | TransferredApproved (assetId : AssetId) (owner delegate dst : AccountId)
      (amount : Nat)
  | AssetStatusChanged (assetId : AssetId)
  | CustodianSet (custodian : AccountId)
  | MetadataUpdated (assetId : AssetId) (url dataIpfs : List Nat)
  | CarbonCreditsBurned (account : AccountId) (assetId : AssetId)
      (amount : Nat)
deriving Repr, DecidableEq

/-- Reason an asset account exists (`ExistenceReason` in `types.rs`;
spec §3): it controls the reaping policy and deposit refunds. -/
inductive ExistenceReason : Type
  | consumer
  | sufficient
  | depositHeld (deposit : Nat)
deriving Repr, DecidableEq

/-- Per-class details (`AssetDetails`). -/
structure AssetDetails : Type where
  owner : AccountId
  issuer : AccountId
  admin : AccountId
  freezer : AccountId
  supply : Nat
  deposit : Nat
  min_balance : Nat
  is_sufficient : Bool
  accounts : Nat
  sufficients : Nat
  approvals : Nat
  is_frozen : Bool
deriving Repr, DecidableEq

/-- Per-(asset, holder) account (`AssetAccount`).  The opaque `extra`
payload is defaulted and omitted. -/
structure AssetAccount : Type where
  balance : Nat
  is_frozen : Bool
  reason : ExistenceReason
deriving Repr, DecidableEq

/-- Approval entry (`Approval`). -/
structure Approval : Type where
  amount : Nat
  deposit : Nat
deriving Repr, DecidableEq

/-- Asset metadata (`AssetMetadata`); bounded byte strings as `List Nat`. -/
structure AssetMetadata : Type where
  deposit : Nat
  name : List Nat
  symbol : List Nat
  url : List Nat
  data_ipfs : List Nat
  decimals : Nat
  is_frozen : Bool
deriving Repr, DecidableEq

/-- Default metadata (the `Metadata` storage map is `ValueQuery` with a
default value). -/
def AssetMetadata.default : AssetMetadata :=
  { deposit := 0, name := [], symbol := [], url := [], data_ipfs := []
    decimals := 0, is_frozen := false }

/-- Witness for `destroy` (`DestroyWitness`). -/
structure DestroyWitness : Type where
  accounts : Nat
  sufficients : Nat
  approvals : Nat
deriving Repr, DecidableEq

/-- Debit flags (`DebitFlags` in `types.rs`). -/
structure DebitFlags : Type where
  keep_alive : Bool
  best_effort : Bool
deriving Repr, DecidableEq

/-- Transfer flags (`TransferFlags`). -/
structure TransferFlags : Type where
  keep_alive : Bool
  best_effort : Bool
  burn_dust : Bool
deriving Repr, DecidableEq

/-- Runtime configuration constants consumed by the pallet (`Config` trait:
deposit tuning constants, the bounded-string limit and the external
account-system consumer limit). -/
structure Config : Type where
  assetDeposit : Nat
  assetAccountDeposit : Nat
  metadataDepositBase : Nat
  metadataDepositPerByte : Nat
  approvalDeposit : Nat
  stringLimit : Nat
  maxConsumers : Nat
deriving Repr, DecidableEq

/-- The constants of the mock runtime (`mock.rs`). -/
def mockCfg : Config :=
  { assetDeposit := 1, assetAccountDeposit := 10, metadataDepositBase := 1
    metadataDepositPerByte := 1, approvalDeposit := 1, stringLimit := 50
    maxConsumers := 2 }

/-- Full module state: the pallet's own storage items, the external
native-currency ledger (free / reserved), the external account-system
reference counts, the freezer's frozen-balance overlay, the event deposit
list and the record of fired `died` hooks. -/
structure PalletState : Type where
  asset : List (AssetId × AssetDetails)
  account : List ((AssetId × AccountId) × AssetAccount)
  approvals : List ((AssetId × AccountId × AccountId) × Approval)
  metadata : List (AssetId × AssetMetadata)
  burnCertificate : List ((AccountId × AssetId) × Nat)
  custodian : Option AccountId
  lastNonce : Nat
  natFree : List (AccountId × Nat)
  natReserved : List (AccountId × Nat)
  sysProviders : List (AccountId × Nat)
  sysConsumers : List (AccountId × Nat)
  sysSufficients : List (AccountId × Nat)
  frozenOverlay : List ((AssetId × AccountId) × Nat)
  events : List Event
  hooks : List (AssetId × AccountId)
deriving Repr, DecidableEq

/-- One dispatchable call of the pallet, with its origin. -/
inductive Command : Type
  | set_custodian (origin : Origin) (custodian : AccountId)
  | create (origin : Origin) (name symbol : List Nat)
  | set_project_data (origin : Origin) (id : AssetId) (url dataIpfs : List Nat)
  | force_create (origin : Origin) (id : AssetId) (owner : AccountId)
      (isSufficient : Bool) (minBalance : Nat)
  | destroy (origin : Origin) (id : AssetId) (witness : DestroyWitness)
  | mint (origin : Origin) (id : AssetId) (amount : Nat)
  | burn (origin : Origin) (id : AssetId) (who : AccountId) (amount : Nat)
  | self_burn (origin : Origin) (id : AssetId) (amount : Nat)
  | transfer (origin : Origin) (id : AssetId) (target : AccountId)
      (amount : Nat)
  | transfer_keep_alive (origin : Origin) (id : AssetId) (target : AccountId)
      (amount : Nat)
  | force_transfer (origin : Origin) (id : AssetId) (source dst : AccountId)
      (amount : Nat)
  | freeze (origin : Origin) (id : AssetId) (who : AccountId)
  | thaw (origin : Origin) (id : AssetId) (who : AccountId)
  | freeze_asset (origin : Origin) (id : AssetId)
  | thaw_asset (origin : Origin) (id : AssetId)
  | transfer_ownership (origin : Origin) (id : AssetId) (owner : AccountId)
  | force_set_metadata (origin : Origin) (id : AssetId)
      (name symbol url dataIpfs : List Nat) (decimals : Nat) (isFrozen : Bool)
  | force_clear_metadata (origin : Origin) (id : AssetId)
  | force_asset_status (origin : Origin) (id : AssetId)
      (owner issuer admin freezer : AccountId) (minBalance : Nat)
      (isSufficient isFrozen : Bool)
  | approve_transfer (origin : Origin) (id : AssetId) (delegate : AccountId)
      (amount : Nat)
  | cancel_approval (origin : Origin) (id : AssetId) (delegate : AccountId)
  | force_cancel_approval (origin : Origin) (id : AssetId)
      (owner delegate : AccountId)
  | transfer_approved (origin : Origin) (id : AssetId)
      (owner dst : AccountId) (amount : Nat)
  | touch (origin : Origin) (id : AssetId)
  | refund (origin : Origin) (id : AssetId) (allowBurn : Bool)
deriving Repr, DecidableEq

/-! ## External collaborators

The native-currency ledger and the account-system reference counts are
external to the pallet (spec §6); they are embedded as fields of
`PalletState` touched only through the narrow interface below. -/

def freeOf (s : PalletState) (who : AccountId) : Nat :=
  (mget s.natFree who).getD 0

def reservedOf (s : PalletState) (who : AccountId) : Nat :=
  (mget s.natReserved who).getD 0

def providersOf (s : PalletState) (who : AccountId) : Nat :=
  (mget s.sysProviders who).getD 0

def consumersOf (s : PalletState) (who : AccountId) : Nat :=
  (mget s.sysConsumers who).getD 0

def sufficientsOf (s : PalletState) (who : AccountId) : Nat :=
  (mget s.sysSufficients who).getD 0

/-- Modelled from the spec: `Currency::reserve` moves `amount` from free to
reserved balance, failing (`InsufficientBalance`) when the free balance is
too low. -/
def currencyReserve (s : PalletState) (who : AccountId) (amount : Nat) :
    Except Err PalletState :=
  if amount ≤ freeOf s who then
    .ok { s with
      natFree := mset s.natFree who (freeOf s who - amount)
      natReserved := mset s.natReserved who (reservedOf s who + amount) }
  else .error .InsufficientBalance

/-- Modelled from the spec: `Currency::unreserve` moves back at most the
reserved balance; it never fails. -/
def currencyUnreserve (s : PalletState) (who : AccountId) (amount : Nat) :
    PalletState :=
  let m := min amount (reservedOf s who)
  { s with
    natReserved := mset s.natReserved who (reservedOf s who - m)
    natFree := mset s.natFree who (freeOf s who + m) }

/-- Modelled from the spec: `Currency::repatriate_reserved(…, Reserved)`
moves at most the reserved balance of `who` into the reserved balance of
`dest`. -/
def currencyRepatriateReserved (s : PalletState) (who dest : AccountId)
    (amount : Nat) : PalletState :=
  if who = dest then s
  else
    let m := min amount (reservedOf s who)
    { s with
      natReserved :=
        mset (mset s.natReserved who (reservedOf s who - m)) dest
          (reservedOf s dest + m) }

/-- Modelled from the spec: the external account system can gain a consumer
reference only when the account has a provider and the consumer limit is
not reached. -/
def canIncConsumers (cfg : Config) (s : PalletState) (who : AccountId) :
    Prop :=
  0 < providersOf s who ∧ consumersOf s who < cfg.maxConsumers

instance (cfg : Config) (s : PalletState) (who : AccountId) :
    Decidable (canIncConsumers cfg s who) := by
  unfold canIncConsumers; infer_instance

def incConsumers (s : PalletState) (who : AccountId) : PalletState :=
  { s with sysConsumers := mset s.sysConsumers who (consumersOf s who + 1) }

def decConsumers (s : PalletState) (who : AccountId) : PalletState :=
  { s with sysConsumers := mset s.sysConsumers who (consumersOf s who - 1) }

def incSufficients (s : PalletState) (who : AccountId) : PalletState :=
  { s with
    sysSufficients := mset s.sysSufficients who (sufficientsOf s who + 1) }

def decSufficients (s : PalletState) (who : AccountId) : PalletState :=
  { s with
    sysSufficients := mset s.sysSufficients who (sufficientsOf s who - 1) }

/-! ## The balance engine

Modelled from the spec (§4.4): the engine functions `can_increase`,
`reducible_balance`, `prep_debit`, `new_account`, `increase_balance` and
`decrease_balance` live in the (absent) `functions.rs`; their behaviour
below follows the spec's verdict lists and is pinned by the unit tests in
`tests.rs`. -/

/-- Verdicts of `can_increase` (spec §4.4). -/
inductive DepositConsequence : Type
  | Success
  | BelowMinimum
  | CannotCreate
  | UnknownAsset
  | Overflow
  | Blocked
deriving Repr, DecidableEq

def DepositConsequence.intoResult : DepositConsequence → Except Err Unit
  | .Success => .ok ()
  | .BelowMinimum => .error .BelowMinimum
  | .CannotCreate => .error .CannotCreate
  | .UnknownAsset => .error .UnknownAsset
  | .Overflow => .error .Overflow
  | .Blocked => .error .Blocked

/-- Modelled from the spec: `can_increase(asset, who, amount, minted)`
returns `Success`, `BelowMinimum` (new balance below `min_balance` for a
new account), `CannotCreate` (new account, asset not sufficient, holder
lacks an external provider reference or has exhausted consumers),
`Overflow`, `UnknownAsset`, or `Blocked` (asset frozen and the operation
would create an account). -/
def can_increase (cfg : Config) (s : PalletState) (id : AssetId)
    (who : AccountId) (amount : Nat) (increaseSupply : Bool) :
    DepositConsequence :=
  match mget s.asset id with
  | none => .UnknownAsset
  | some d =>
    if increaseSupply ∧ ¬ d.supply + amount ≤ BMAX then .Overflow
    else
      match mget s.account (id, who) with
      | some a => if a.balance + amount ≤ BMAX then .Success else .Overflow
      | none =>
        if d.is_frozen then .Blocked
        else if amount < d.min_balance then .BelowMinimum
        else if d.is_sufficient then .Success
        else if canIncConsumers cfg s who then .Success
        else .CannotCreate

/-- Modelled from the spec: the balance of `who` that can be withdrawn.
With a frozen-balance overlay the frozen amount plus `min_balance` is
untouchable; with `keep_alive` the `min_balance` is untouchable; otherwise
the whole balance.  Errors: unknown asset, frozen asset/account, missing
account. -/
def reducible_balance (s : PalletState) (id : AssetId) (who : AccountId)
    (keepAlive : Bool) : Except Err Nat :=
  match mget s.asset id with
  | none => .error .Unknown
  | some d =>
    if d.is_frozen then .error .Frozen
    else
      match mget s.account (id, who) with
      | none => .error .NoAccount
      | some a =>
        if a.is_frozen then .error .Frozen
        else
          match mget s.frozenOverlay (id, who) with
          | some frozen => .ok (a.balance - (frozen + d.min_balance))
          | none =>
            if keepAlive then .ok (a.balance - d.min_balance)
            else .ok a.balance

/-- Modelled from the spec: compute the actual debit for a withdrawal of
`amount`.  `best_effort` caps the debit at the reducible balance instead of
failing `BalanceLow`; without `keep_alive`, a debit that would leave the
balance strictly below `min_balance` is raised by the dust so the whole
balance is removed. -/
def prep_debit (s : PalletState) (id : AssetId) (target : AccountId)
    (amount : Nat) (f : DebitFlags) : Except Err Nat := do
  let red ← reducible_balance s id target f.keep_alive
  let actual := min red amount
  if ¬ f.best_effort ∧ actual < amount then throw .BalanceLow
  match mget s.asset id, mget s.account (id, target) with
  | some d, some a =>
    match mget s.frozenOverlay (id, target) with
    | some frozen =>
      if a.balance - actual < frozen + d.min_balance then throw .Frozen
      else pure actual
    | none =>
      if a.balance - actual < d.min_balance then
        if f.keep_alive then throw .WouldDie
        else pure (actual + (a.balance - actual))
      else pure actual
  | _, _ => throw .Unknown

/-- Modelled from the spec (§4.4 account-creation rule): create the
existence reason for a fresh account and bump the reference counts.  A
held deposit gives `DepositHeld`; a sufficient asset gives `Sufficient`
(bumping `sufficients`); otherwise a consumer reference is taken on the
external ledger, failing `NoProvider` when impossible. -/
def new_account (cfg : Config) (s : PalletState) (who : AccountId)
    (d : AssetDetails) (maybeDeposit : Option Nat) :
    Except Err (ExistenceReason × AssetDetails × PalletState) :=
  let d2 := { d with accounts := d.accounts + 1 }
  match maybeDeposit with
  | some dep => .ok (.depositHeld dep, d2, s)
  | none =>
    if d.is_sufficient then
      .ok (.sufficient, { d2 with sufficients := d2.sufficients + 1 },
        incSufficients s who)
    else if canIncConsumers cfg s who then
      .ok (.consumer, d2, incConsumers s who)
    else .error .NoProvider

/-- Modelled from the spec: `increase_balance`, specialised to its single
caller `do_mint` — the mutation closure checks the issuer (when asked) and
adds the minted amount to the supply (saturating, guarded by the overflow
check in `can_increase`). -/
def increase_balance (cfg : Config) (s : PalletState) (id : AssetId)
    (beneficiary : AccountId) (amount : Nat) (checkIssuer : Option AccountId) :
    Except Err PalletState := do
  if amount = 0 then pure s
  else do
    (can_increase cfg s id beneficiary amount true).intoResult
    match mget s.asset id with
    | none => throw .Unknown
    | some d => do
      match checkIssuer with
      | some issuer =>
        if issuer = d.issuer then pure () else throw .NoPermission
      | none => pure ()
      let d := { d with supply := satAdd d.supply amount }
      match mget s.account (id, beneficiary) with
      | some a =>
        pure { s with
          asset := mset s.asset id d
          account := mset s.account (id, beneficiary)
            { a with balance := satAdd a.balance amount } }
      | none => do
        let (reason, d2, s2) ← new_account cfg s beneficiary d none
        pure { s2 with
          asset := mset s2.asset id d2
          account := mset s2.account (id, beneficiary)
            { balance := amount, is_frozen := false, reason := reason } }

/-- Modelled from the spec: the shared account-settling step of both debit
paths (`decrease_balance` and `do_transfer`, i.e. the source half of
`dead_account`): write back the debited balance `newBal` together with the
updated details `d`; when `newBal` drops strictly below `min_balance` the
account is reaped — removed with a `died` hook and dropped reference
counts for `Consumer` / `Sufficient` reasons, kept at zero balance for
`DepositHeld` (pinned by the refund tests). -/
def settle_debit (s : PalletState) (id : AssetId) (target : AccountId)
    (acc : AssetAccount) (newBal : Nat) (d : AssetDetails) : PalletState :=
  if newBal < d.min_balance then
    match acc.reason with
    | .depositHeld _ =>
      { s with
        asset := mset s.asset id d
        account := mset s.account (id, target)
          { acc with balance := newBal } }
    | .consumer =>
      { s with
        asset := mset s.asset id { d with accounts := d.accounts - 1 }
        account := mdel s.account (id, target)
        sysConsumers := mset s.sysConsumers target (consumersOf s target - 1)
        hooks := s.hooks ++ [(id, target)] }
    | .sufficient =>
      { s with
        asset := mset s.asset id
          { d with accounts := d.accounts - 1
                   sufficients := d.sufficients - 1 }
        account := mdel s.account (id, target)
        sysSufficients :=
          mset s.sysSufficients target (sufficientsOf s target - 1)
        hooks := s.hooks ++ [(id, target)] }
  else
    { s with
      asset := mset s.asset id d
      account := mset s.account (id, target) { acc with balance := newBal } }

/-- Modelled from the spec: `decrease_balance`, specialised to its two
callers `do_burn` and `self_burn` — the mutation closure checks the admin
role (when asked) and subtracts the actual debit from the supply
(saturating); then the account is settled (reaping when below
`min_balance`). -/
def decrease_balance (s : PalletState) (id : AssetId) (target : AccountId)
    (amount : Nat) (f : DebitFlags) (checkAdmin : Option AccountId) :
    Except Err (Nat × PalletState) := do
  if amount = 0 then pure (0, s)
  else do
    let actual ← prep_debit s id target amount f
    match mget s.asset id with
    | none => throw .Unknown
    | some d => do
      match checkAdmin with
      | some admin =>
        if admin = d.admin then pure () else throw .NoPermission
      | none => pure ()
      match mget s.account (id, target) with
      | none => throw .NoAccount
      | some acc =>
        pure (actual,
          settle_debit s id target acc (acc.balance - actual)
            { d with supply := d.supply - actual })

/-- Modelled from the spec: `do_mint` — `increase_balance` followed by the
`Issued` event. -/
def do_mint (cfg : Config) (s : PalletState) (id : AssetId)
    (beneficiary : AccountId) (amount : Nat) (checkIssuer : Option AccountId) :
    Except Err PalletState := do
  let s2 ← increase_balance cfg s id beneficiary amount checkIssuer
  pure { s2 with events := s2.events ++ [.Issued id beneficiary amount] }

/-- Modelled from the spec: `do_burn` — `decrease_balance` followed by the
`Burned` event carrying the actual reduced amount. -/
def do_burn (s : PalletState) (id : AssetId) (target : AccountId)
    (amount : Nat) (checkAdmin : Option AccountId) (f : DebitFlags) :
    Except Err (Nat × PalletState) := do
  let (actual, s2) ← decrease_balance s id target amount f checkAdmin
  pure (actual,
    { s2 with events := s2.events ++ [.Burned id target actual] })

/-- Modelled from the spec: the credit half of the transfer algorithm
(`prep_credit`'s commit): add `credit` to an existing destination account
(saturating, guarded by the overflow check in `can_increase`), or create
the account under the account-creation rule. -/
def credit_dest (cfg : Config) (s : PalletState) (id : AssetId)
    (dest : AccountId) (credit : Nat) (d : AssetDetails) :
    Except Err (AssetDetails × PalletState) :=
  match mget s.account (id, dest) with
  | some destAcc =>
    .ok (d, { s with
      account := mset s.account (id, dest)
        { destAcc with balance := satAdd destAcc.balance credit } })
  | none =>
    match new_account cfg s dest d none with
    | .error e => .error e
    | .ok (reason, d2, s2) =>
      .ok (d2, { s2 with
        account := mset s2.account (id, dest)
          { balance := credit, is_frozen := false, reason := reason } })

/-- Modelled from the spec (§4.4 transfer algorithm): `do_transfer`.
A zero amount is a successful no-op with no event (pinned by the test
`transferring_less_than_one_unit_is_fine`).  The debit is prepared (raised
by the dust when the source would drop below `min_balance` without
`keep_alive`); with `burn_dust` the dust is burned from supply and only
`amount` credited, otherwise the full debit is credited.  An optional
admin check guards `force_transfer`.  A self-transfer is skipped after the
checks.  A reaped `Consumer`/`Sufficient` source is removed and `died`
fires; a `DepositHeld` source is kept at zero balance.  Emits
`Transferred` with the credited amount. -/
def do_transfer (cfg : Config) (s : PalletState) (id : AssetId)
    (source dest : AccountId) (amount : Nat)
    (maybeNeedAdmin : Option AccountId) (f : TransferFlags) :
    Except Err (Nat × PalletState) := do
  if amount = 0 then pure (0, s)
  else do
    let debit ← prep_debit s id source amount
      { keep_alive := f.keep_alive, best_effort := f.best_effort }
    let credit := if f.burn_dust ∧ amount ≤ debit then amount else debit
    let burnAmt := if f.burn_dust ∧ amount ≤ debit then debit - amount else 0
    (can_increase cfg s id dest credit false).intoResult
    match mget s.asset id with
    | none => throw .Unknown
    | some d => do
      match maybeNeedAdmin with
      | some admin =>
        if admin = d.admin then pure () else throw .NoPermission
      | none => pure ()
      match mget s.account (id, source) with
      | none => throw .NoAccount
      | some srcAcc =>
        if source = dest then
          pure (credit, { s with
            events := s.events ++ [.Transferred id source dest credit] })
        else do
          let (d2, s1) ← credit_dest cfg s id dest credit
            { d with supply := d.supply - burnAmt }
          let s3 := settle_debit s1 id source srcAcc
            (srcAcc.balance - debit) d2
          pure (credit, { s3 with
            events := s3.events ++ [.Transferred id source dest credit] })

/-- Modelled from the spec (§4.5): `do_approve_transfer`.  The asset must
exist and not be frozen; an existing approval is topped up (saturating),
a new one reserves `ApprovalDeposit` and bumps the `approvals` count.
Emits `ApprovedTransfer`. -/
def do_approve_transfer (cfg : Config) (s : PalletState) (id : AssetId)
    (owner delegate : AccountId) (amount : Nat) : Except Err PalletState := do
  match mget s.asset id with
  | none => throw .Unknown
  | some d =>
    if d.is_frozen then throw .Frozen
    else
      match mget s.approvals (id, owner, delegate) with
      | some ap =>
        pure { s with
          approvals := mset s.approvals (id, owner, delegate)
            { ap with amount := satAdd ap.amount amount }
          events := s.events ++ [.ApprovedTransfer id owner delegate amount] }
      | none => do
        let s2 ← currencyReserve s owner cfg.approvalDeposit
        pure { s2 with
          approvals := mset s2.approvals (id, owner, delegate)
            { amount := amount, deposit := cfg.approvalDeposit }
          asset := mset s2.asset id { d with approvals := d.approvals + 1 }
          events := s2.events ++ [.ApprovedTransfer id owner delegate amount] }

/-- Modelled from the spec (§4.5): `do_transfer_approved`.  `Unapproved`
when no approval exists or it is smaller than `amount`; otherwise the
transfer runs from the owner (no keep-alive), then the approval is
decremented — and entirely removed, with its deposit unreserved and the
`approvals` count dropped, when drained to zero. -/
def do_transfer_approved (cfg : Config) (s : PalletState) (id : AssetId)
    (owner delegate dst : AccountId) (amount : Nat) :
    Except Err PalletState := do
  match mget s.approvals (id, owner, delegate) with
  | none => throw .Unapproved
  | some ap =>
    if ap.amount < amount then throw .Unapproved
    else do
      let remaining := ap.amount - amount
      let (_, s2) ← do_transfer cfg s id owner dst amount none
        { keep_alive := false, best_effort := false, burn_dust := false }
      if remaining = 0 then
        let s3 := currencyUnreserve s2 owner ap.deposit
        let s4 :=
          match mget s3.asset id with
          | some d =>
            { s3 with
              asset := mset s3.asset id { d with approvals := d.approvals - 1 } }
          | none => s3
        pure { s4 with approvals := mdel s4.approvals (id, owner, delegate) }
      else
        pure { s2 with
          approvals := mset s2.approvals (id, owner, delegate)
            { ap with amount := remaining } }

/-- Modelled from the spec: `do_set_metadata` (called by `create` with the
caller-supplied name and symbol and `decimals = 9`).  Bounded-string
checks fail `BadMetadata`; the caller must be the owner; the metadata
deposit `base + perByte × (|name| + |symbol|)` is reserved (the
difference from any previous deposit); url / data_ipfs are left as they
were (empty for a fresh asset).  Emits `MetadataSet`. -/
def do_set_metadata (cfg : Config) (s : PalletState) (id : AssetId)
    (who : AccountId) (name symbol : List Nat) (decimals : Nat) :
    Except Err PalletState := do
  if ¬ name.length ≤ cfg.stringLimit then throw .BadMetadata
  if ¬ symbol.length ≤ cfg.stringLimit then throw .BadMetadata
  match mget s.asset id with
  | none => throw .Unknown
  | some d => do
    if ¬ who = d.owner then throw .NoPermission
    let old := (mget s.metadata id).getD AssetMetadata.default
    if old.is_frozen then throw .NoPermission
    let oldDeposit := ((mget s.metadata id).map (fun m => m.deposit)).getD 0
    let newDeposit := cfg.metadataDepositBase +
      cfg.metadataDepositPerByte * (name.length + symbol.length)
    let s2 ←
      if oldDeposit < newDeposit then
        currencyReserve s who (newDeposit - oldDeposit)
      else pure (currencyUnreserve s who (oldDeposit - newDeposit))
    pure { s2 with
      metadata := mset s2.metadata id
        { deposit := newDeposit, name := name, symbol := symbol
          url := old.url, data_ipfs := old.data_ipfs
          decimals := decimals, is_frozen := false }
      events := s2.events ++ [.MetadataSet id name symbol decimals false] }

/-- Modelled from the spec (§4.3): `update_metadata`, the engine behind
`set_project_data`.  Permitted when the caller is the asset's owner or
the custodian; fails `CannotChangeAfterMint` when `supply > 0`; fails
`BadMetadata` when either bounded string exceeds `StringLimit`.  Writes
only `url` and `data_ipfs` and emits `MetadataUpdated`. -/
def update_metadata (cfg : Config) (s : PalletState) (id : AssetId)
    (caller : AccountId) (url dataIpfs : List Nat) :
    Except Err PalletState := do
  match mget s.asset id with
  | none => throw .Unknown
  | some d => do
    if ¬ (caller = d.owner ∨ s.custodian = some caller) then
      throw .NoPermission
    if 0 < d.supply then throw .CannotChangeAfterMint
    if ¬ url.length ≤ cfg.stringLimit then throw .BadMetadata
    if ¬ dataIpfs.length ≤ cfg.stringLimit then throw .BadMetadata
    let old := (mget s.metadata id).getD AssetMetadata.default
    pure { s with
      metadata := mset s.metadata id
        { old with url := url, data_ipfs := dataIpfs }
      events := s.events ++ [.MetadataUpdated id url dataIpfs] }

/-- Modelled from the spec: `do_force_create` installs an asset with all
four roles set to `owner`, no deposit, zero supply; `InUse` when the id is
taken, `MinBalanceZero` when `min_balance = 0`.  Emits `ForceCreated`. -/
def do_force_create (s : PalletState) (id : AssetId) (owner : AccountId)
    (isSufficient : Bool) (minBalance : Nat) : Except Err PalletState :=
  if (mget s.asset id).isSome then .error .InUse
  else if minBalance = 0 then .error .MinBalanceZero
  else
    .ok { s with
      asset := mset s.asset id
        { owner := owner, issuer := owner, admin := owner, freezer := owner
          supply := 0, deposit := 0, min_balance := minBalance
          is_sufficient := isSufficient, accounts := 0, sufficients := 0
          approvals := 0, is_frozen := false }
      events := s.events ++ [.ForceCreated id owner] }

/-- Modelled from the spec (§4.2): `do_destroy`.  The witness must not
under-report any of the three reference counts (`BadWitness`); every
account of the class is removed (firing `died` per account and dropping
the external reference counts), the metadata is cleared, the owner's asset
and metadata deposits are returned, every approval deposit is refunded to
its owner, and the registry entry is removed.  Emits `Destroyed`. -/
def do_destroy (s : PalletState) (id : AssetId) (witness : DestroyWitness)
    (maybeCheckOwner : Option AccountId) : Except Err PalletState := do
  match mget s.asset id with
  | none => throw .Unknown
  | some d => do
    match maybeCheckOwner with
    | some o => if d.owner = o then pure () else throw .NoPermission
    | none => pure ()
    if ¬ d.accounts ≤ witness.accounts then throw .BadWitness
    if ¬ d.sufficients ≤ witness.sufficients then throw .BadWitness
    if ¬ d.approvals ≤ witness.approvals then throw .BadWitness
    let accs := s.account.filter (fun e => e.1.1 = id)
    let aps := s.approvals.filter (fun e => e.1.1 = id)
    let md := (mget s.metadata id).getD AssetMetadata.default
    let s1 := accs.foldl
      (fun st e =>
        match e.2.reason with
        | .consumer => decConsumers st e.1.2
        | .sufficient => decSufficients st e.1.2
        | .depositHeld _ => st) s
    let s2 := { s1 with
      account := s1.account.filter (fun e => ¬ e.1.1 = id)
      metadata := mdel s1.metadata id }
    let s3 := currencyUnreserve s2 d.owner (d.deposit + md.deposit)
    let s4 := aps.foldl
      (fun st e => currencyUnreserve st e.1.2.1 e.2.deposit) s3
    pure { s4 with
      approvals := s4.approvals.filter (fun e => ¬ e.1.1 = id)
      asset := mdel s4.asset id
      events := s4.events ++ [.Destroyed id]
      hooks := s4.hooks ++ accs.map (fun e => (id, e.1.2)) }

/-- Modelled from the spec (§4.4): `do_touch` creates a zero-balance
account backed by a reserved `AssetAccountDeposit`. -/
def do_touch (cfg : Config) (s : PalletState) (id : AssetId)
    (who : AccountId) : Except Err PalletState := do
  if (mget s.account (id, who)).isSome then throw .AlreadyExists
  match mget s.asset id with
  | none => throw .Unknown
  | some d => do
    let dep := cfg.assetAccountDeposit
    let (reason, d2, s1) ← new_account cfg s who d (some dep)
    let s2 ← currencyReserve s1 who dep
    pure { s2 with
      asset := mset s2.asset id d2
      account := mset s2.account (id, who)
        { balance := 0, is_frozen := false, reason := reason } }

/-- Modelled from the spec (§4.4): `do_refund` removes a `DepositHeld`
account, burning any residual balance from supply when `allow_burn` (else
`WouldBurn`), unreserves the deposit and fires `died` (pinned by the test
`refunding_calls_died_hook`). -/
def do_refund (s : PalletState) (id : AssetId) (who : AccountId)
    (allowBurn : Bool) : Except Err PalletState := do
  match mget s.account (id, who) with
  | none => throw .Unknown
  | some a =>
    match a.reason with
    | .depositHeld dep =>
      match mget s.asset id with
      | none => throw .Unknown
      | some d => do
        if ¬ (a.balance = 0 ∨ allowBurn) then throw .WouldBurn
        if d.is_frozen then throw .Frozen
        if a.is_frozen then throw .Frozen
        let s1 := currencyUnreserve s who dep
        pure { s1 with
          asset := mset s1.asset id
            { d with accounts := d.accounts - 1
                     supply := d.supply - a.balance }
          account := mdel s1.account (id, who)
          hooks := s1.hooks ++ [(id, who)] }
    | _ => throw .NoDeposit

/-- Modelled from the spec (§4.1): the id service derives a fresh 24-byte
id from the incremented per-module nonce, the randomness beacon and a
caller salt; the hash is embedded as the injective pairing of the fresh
nonce with the caller.  A collision with an existing id fails
`ErrorCreatingAssetId` (after the nonce write, which the transactional
wrapper rolls back). -/
def get_new_asset_id (s : PalletState) (owner : AccountId) :
    Except Err (AssetId × PalletState) :=
  if (mget s.asset (Nat.pair (s.lastNonce + 1) owner)).isSome then
    .error .ErrorCreatingAssetId
  else
    .ok (Nat.pair (s.lastNonce + 1) owner,
      { s with lastNonce := s.lastNonce + 1 })

/-! ## Dispatch -/

def ensureSigned : Origin → Except Err AccountId
  | .root => .error .BadOrigin
  | .signed who => .ok who

def ensureRoot : Origin → Except Err Unit
  | .root => .ok ()
  | .signed _ => .error .BadOrigin

/-- Run one dispatchable call (the `#[pallet::call]` bodies of `lib.rs`).
Storage writes are threaded through the state; an error result is
discarded whole by the transactional wrapper `executeTx` below — this is
the FRAME transactional-dispatch semantics the runtime gives every call
(and which `assert_noop` in the unit tests relies on). -/
def runCommand (cfg : Config) (s : PalletState) :
    Command → Except Err PalletState
  | .set_custodian origin custodian => do
    ensureRoot origin
    pure { s with
      custodian := some custodian
      events := s.events ++ [.CustodianSet custodian] }
  | .create origin name symbol => do
    let owner ← ensureSigned origin
    match s.custodian with
    | none => throw .NoCustodian
    | some admin => do
      let (id, s1) ← get_new_asset_id s owner
      let deposit := cfg.assetDeposit
      let s2 ← currencyReserve s1 owner deposit
      let s3 := { s2 with
        asset := mset s2.asset id
          { owner := owner, issuer := admin, admin := admin, freezer := admin
            supply := 0, deposit := deposit, min_balance := 1
            is_sufficient := false, accounts := 0, sufficients := 0
            approvals := 0, is_frozen := false }
        events := s2.events ++ [.Created id owner] }
      do_set_metadata cfg s3 id owner name symbol 9
  | .set_project_data origin id url dataIpfs => do
    let caller ← ensureSigned origin
    update_metadata cfg s id caller url dataIpfs
  | .force_create origin id owner isSufficient minBalance => do
    ensureRoot origin
    do_force_create s id owner isSufficient minBalance
  | .destroy origin id witness =>
    match origin with
    | .root => do_destroy s id witness none
    | .signed who => do_destroy s id witness (some who)
  | .mint origin id amount => do
    let o ← ensureSigned origin
    match mget s.asset id with
    | none => throw .Unknown
    | some d => do_mint cfg s id d.owner amount (some o)
  | .burn origin id who amount => do
    let o ← ensureSigned origin
    let f : DebitFlags := { keep_alive := false, best_effort := false }
    let (_, s2) ← do_burn s id who amount (some o) f
    let s3 := { s2 with
      burnCertificate :=
        match mget s2.burnCertificate (who, id) with
        | some b => mset s2.burnCertificate (who, id) (satAdd b amount)
        | none => mset s2.burnCertificate (who, id) amount }
    pure { s3 with
      events := s3.events ++ [.CarbonCreditsBurned who id amount] }
  | .self_burn origin id amount => do
    let caller ← ensureSigned origin
    let f : DebitFlags := { keep_alive := false, best_effort := false }
    let (actual, s2) ← decrease_balance s id caller amount f none
    let s3 := { s2 with
      events := s2.events ++ [Event.Burned id caller actual] }
    let s4 := { s3 with
      burnCertificate :=
        match mget s3.burnCertificate (caller, id) with
        | some b => mset s3.burnCertificate (caller, id) (satAdd b amount)
        | none => mset s3.burnCertificate (caller, id) amount }
    pure { s4 with
      events := s4.events ++ [Event.CarbonCreditsBurned caller id amount] }
  | .transfer origin id target amount => do
    let o ← ensureSigned origin
    let f : TransferFlags :=
      { keep_alive := false, best_effort := false, burn_dust := false }
    let (_, s2) ← do_transfer cfg s id o target amount none f
    pure s2
  | .transfer_keep_alive origin id target amount => do
    let source ← ensureSigned origin
    let f : TransferFlags :=
      { keep_alive := true, best_effort := false, burn_dust := false }
    let (_, s2) ← do_transfer cfg s id source target amount none f
    pure s2
  | .force_transfer origin id source dst amount => do
    let o ← ensureSigned origin
    let f : TransferFlags :=
      { keep_alive := false, best_effort := false, burn_dust := false }
    let (_, s2) ← do_transfer cfg s id source dst amount (some o) f
    pure s2
  | .freeze origin id who => do
    let o ← ensureSigned origin
    match mget s.asset id with
    | none => throw .Unknown
    | some d => do
      if ¬ o = d.freezer then throw .NoPermission
      match mget s.account (id, who) with
      | none => throw .NoAccount
      | some a =>
        pure { s with
          account := mset s.account (id, who) { a with is_frozen := true }
          events := s.events ++ [.Frozen id who] }
  | .thaw origin id who => do
    let o ← ensureSigned origin
    match mget s.asset id with
    | none => throw .Unknown
    | some d => do
      if ¬ o = d.admin then throw .NoPermission
      match mget s.account (id, who) with
      | none => throw .NoAccount
      | some a =>
        pure { s with
          account := mset s.account (id, who) { a with is_frozen := false }
          events := s.events ++ [.Thawed id who] }
  | .freeze_asset origin id => do
    let o ← ensureSigned origin
    match mget s.asset id with
    | none => throw .Unknown
    | some d => do
      if ¬ o = d.freezer then throw .NoPermission
      pure { s with
        asset := mset s.asset id { d with is_frozen := true }
        events := s.events ++ [.AssetFrozen id] }
  | .thaw_asset origin id => do
    let o ← ensureSigned origin
    match mget s.asset id with
    | none => throw .Unknown
    | some d => do
      if ¬ o = d.admin then throw .NoPermission
      pure { s with
        asset := mset s.asset id { d with is_frozen := false }
        events := s.events ++ [.AssetThawed id] }
  | .transfer_ownership origin id owner => do
    let o ← ensureSigned origin
    match mget s.asset id with
    | none => throw .Unknown
    | some d => do
      if ¬ o = d.owner then throw .NoPermission
      if d.owner = owner then pure s
      else do
        let metadataDeposit :=
          ((mget s.metadata id).getD AssetMetadata.default).deposit
        let deposit := d.deposit + metadataDeposit
        let s1 := currencyRepatriateReserved s d.owner owner deposit
        pure { s1 with
          asset := mset s1.asset id { d with owner := owner }
          events := s1.events ++ [.OwnerChanged id owner] }
  | .force_set_metadata origin id name symbol url dataIpfs decimals
      isFrozen => do
    ensureRoot origin
    if ¬ name.length ≤ cfg.stringLimit then throw .BadMetadata
    if ¬ symbol.length ≤ cfg.stringLimit then throw .BadMetadata
    if ¬ url.length ≤ cfg.stringLimit then throw .BadMetadata
    if ¬ dataIpfs.length ≤ cfg.stringLimit then throw .BadMetadata
    if (mget s.asset id).isNone then throw .Unknown
    let deposit := ((mget s.metadata id).map (fun m => m.deposit)).getD 0
    pure { s with
      metadata := mset s.metadata id
        { deposit := deposit, name := name, symbol := symbol, url := url
          data_ipfs := dataIpfs, decimals := decimals, is_frozen := isFrozen }
      events := s.events ++
        [.MetadataSet id name symbol decimals isFrozen,
         .MetadataUpdated id url dataIpfs] }
  | .force_clear_metadata origin id => do
    ensureRoot origin
    match mget s.asset id with
    | none => throw .Unknown
    | some d =>
      match mget s.metadata id with
      | none => throw .Unknown
      | some md =>
        let s1 := currencyUnreserve s d.owner md.deposit
        pure { s1 with
          metadata := mdel s1.metadata id
          events := s1.events ++ [.MetadataCleared id] }
  | .force_asset_status origin id owner issuer admin freezer minBalance
      isSufficient isFrozen => do
    ensureRoot origin
    match mget s.asset id with
    | none => throw .Unknown
    | some d =>
      pure { s with
        asset := mset s.asset id
          { d with owner := owner, issuer := issuer, admin := admin
                   freezer := freezer, min_balance := minBalance
                   is_sufficient := isSufficient, is_frozen := isFrozen }
        events := s.events ++ [.AssetStatusChanged id] }
  | .approve_transfer origin id delegate amount => do
    let owner ← ensureSigned origin
    do_approve_transfer cfg s id owner delegate amount
  | .cancel_approval origin id delegate => do
    let owner ← ensureSigned origin
    match mget s.asset id with
    | none => throw .Unknown
    | some d =>
      match mget s.approvals (id, owner, delegate) with
      | none => throw .Unknown
      | some approval =>
        let s1 := currencyUnreserve s owner approval.deposit
        pure { s1 with
          approvals := mdel s1.approvals (id, owner, delegate)
          asset := mset s1.asset id { d with approvals := d.approvals - 1 }
          events := s1.events ++ [.ApprovalCancelled id owner delegate] }
  | .force_cancel_approval origin id owner delegate => do
    match mget s.asset id with
    | none => throw .Unknown
    | some d => do
      match origin with
      | .root => pure ()
      | .signed o => if o = d.admin then pure () else throw .NoPermission
      match mget s.approvals (id, owner, delegate) with
      | none => throw .Unknown
      | some approval =>
        let s1 := currencyUnreserve s owner approval.deposit
        pure { s1 with
          approvals := mdel s1.approvals (id, owner, delegate)
          asset := mset s1.asset id { d with approvals := d.approvals - 1 }
          events := s1.events ++ [.ApprovalCancelled id owner delegate] }
  | .transfer_approved origin id owner dst amount => do
    let delegate ← ensureSigned origin
    do_transfer_approved cfg s id owner delegate dst amount
  | .touch origin id => do
    let who ← ensureSigned origin
    do_touch cfg s id who
  | .refund origin id allowBurn => do
    let who ← ensureSigned origin
    do_refund s id who allowBurn

/-- Transactional dispatch: a failed call leaves the state untouched; a
successful call commits its full effect. -/
def executeTx (cfg : Config) (s : PalletState) (c : Command) : PalletState :=
  match runCommand cfg s c with
  | .ok s2 => s2
  | .error _ => s

/-- Value of the burn certificate of `(who, id)` (0 when absent). -/
def certOf (s : PalletState) (who : AccountId) (id : AssetId) : Nat :=
  (mget s.burnCertificate (who, id)).getD 0

/-- Commands whose success legitimately emits no event: zero-amount
transfers (including approved ones), `transfer_ownership` to the current
owner, and `touch` / `refund` (the `Event` enum has no `Touched` /
`Refunded` variants). -/
def noopEvent (s : PalletState) : Command → Prop
  | .transfer _ _ _ amount => amount = 0
  | .transfer_keep_alive _ _ _ amount => amount = 0
  | .force_transfer _ _ _ _ amount => amount = 0
  | .transfer_approved _ _ _ _ amount => amount = 0
  | .transfer_ownership _ id newOwner =>
    ∀ d, mget s.asset id = some d → d.owner = newOwner
  | .touch _ _ => True
  | .refund _ _ _ => True
  | _ => False

/-! ## Balance sums and map well-formedness -/

/-- Sum of the balances of all accounts of asset `id`. -/
def sumBal (id : AssetId)
    (m : List ((AssetId × AccountId) × AssetAccount)) : Nat :=
  m.foldr (fun e acc => (if e.1.1 = id then e.2.balance else 0) + acc) 0

/-- Keys of an association list are duplicate-free. -/
def keysND {K V : Type} [DecidableEq K] (m : List (K × V)) : Prop :=
  (m.map (fun e => e.1)).Nodup

/-- The supply invariant (spec §8, invariant 1) on an asset registry and
an account ledger, together with the two auxiliary facts its preservation
needs: the account map has duplicate-free keys, and every account entry
belongs to a registered asset. -/
def InvOn (am : List (AssetId × AssetDetails))
    (acm : List ((AssetId × AccountId) × AssetAccount)) : Prop :=
  keysND acm ∧
  (∀ e ∈ acm, (mget am e.1.1).isSome) ∧
  (∀ id d, mget am id = some d → d.supply = sumBal id acm)

/-- The supply invariant of a module state. -/
def Inv (s : PalletState) : Prop :=
  InvOn s.asset s.account

/-- Reachable module states: genesis ships no assets and no asset
accounts (the other storage items and the external environment are
arbitrary); every executed command is a step; and the environment may
change anything outside the module's own storage (native ledger,
reference counts, frozen-balance overlay, event and hook logs) between
commands. -/
inductive Reachable (cfg : Config) : PalletState → Prop
  | init (s : PalletState) (hasset : s.asset = [])
      (haccount : s.account = []) : Reachable cfg s
  | step (s : PalletState) (c : Command) (hs : Reachable cfg s) :
      Reachable cfg (executeTx cfg s c)
  | env (s s2 : PalletState) (hs : Reachable cfg s)
      (hasset : s2.asset = s.asset) (haccount : s2.account = s.account)
      (happrovals : s2.approvals = s.approvals)
      (hmetadata : s2.metadata = s.metadata)
      (hbc : s2.burnCertificate = s.burnCertificate)
      (hcu : s2.custodian = s.custodian)
      (hnonce : s2.lastNonce = s.lastNonce) : Reachable cfg s2

/-- Genesis of the mock runtime: empty module storage, account 1 funded
and provided for. -/
def genesisState : PalletState :=
  { asset := [], account := [], approvals := [], metadata := []
    burnCertificate := [], custodian := none, lastNonce := 0
    natFree := [(1, 100)], natReserved := []
    sysProviders := [(1, 1), (2, 1)], sysConsumers := []
    sysSufficients := [], frozenOverlay := [], events := [], hooks := [] }

/-! ## Concrete fixtures

Small mock-runtime states used to exercise the theorems below on concrete
inputs. -/

/-- A sufficient asset with `min_balance` 10, owned by account 1 holding
the whole supply of 100. -/
def exampleDetails : AssetDetails :=
  { owner := 1, issuer := 1, admin := 1, freezer := 1, supply := 100
    deposit := 0, min_balance := 10, is_sufficient := true, accounts := 1
    sufficients := 1, approvals := 0, is_frozen := false }

def exampleAccount : AssetAccount :=
  { balance := 100, is_frozen := false, reason := .sufficient }

/-- A mock state holding `exampleDetails` as asset 0: account 1 holds the
supply, has 50 free native currency and a `sufficient` reference; accounts
1 and 2 each have a provider reference. -/
def exampleState : PalletState :=
  { asset := [(0, exampleDetails)]
    account := [((0, 1), exampleAccount)]
    approvals := [], metadata := [], burnCertificate := []
    custodian := some 1, lastNonce := 100
    natFree := [(1, 50)], natReserved := []
    sysProviders := [(1, 1), (2, 1)], sysConsumers := []
    sysSufficients := [(1, 1)]
    frozenOverlay := [], events := [], hooks := [] }

/-- An asset with two holder accounts, for the destroy fixture. -/
def destroyDetails : AssetDetails :=
  { owner := 1, issuer := 1, admin := 1, freezer := 1, supply := 150
    deposit := 1, min_balance := 10, is_sufficient := true, accounts := 2
    sufficients := 2, approvals := 0, is_frozen := false }

/-- A mock state in which asset 0 has the two holder accounts 1 and 2. -/
def destroyState : PalletState :=
  { asset := [(0, destroyDetails)]
    account := [((0, 1), { balance := 100, is_frozen := false
                           reason := .sufficient }),
                ((0, 2), { balance := 50, is_frozen := false
                           reason := .sufficient })]
    approvals := [], metadata := [], burnCertificate := []
    custodian := some 1, lastNonce := 0
    natFree := [(1, 50)], natReserved := [(1, 1)]
    sysProviders := [(1, 1), (2, 1)], sysConsumers := []
    sysSufficients := [(1, 1), (2, 1)]
    frozenOverlay := [], events := [], hooks := [] }

/-- A mock state whose asset-0 holder account 1 exists for reason
`DepositHeld 10` (created by `touch`, then credited 5 units, the whole
supply); `min_balance` is 1, so a full transfer of the 5 units dusts the
source. -/
def depositHeldState : PalletState :=
  { asset := [(0, { owner := 1, issuer := 1, admin := 1, freezer := 1
                    supply := 5, deposit := 0, min_balance := 1
                    is_sufficient := false, accounts := 1, sufficients := 0
                    approvals := 0, is_frozen := false })]
    account := [((0, 1), { balance := 5, is_frozen := false
                           reason := .depositHeld 10 })]
    approvals := [], metadata := [], burnCertificate := []
    custodian := some 1, lastNonce := 0
    natFree := [(1, 40), (2, 40)], natReserved := [(1, 10)]
    sysProviders := [(1, 1), (2, 1)], sysConsumers := []
    sysSufficients := []
    frozenOverlay := [], events := [], hooks := [] }

/-! ## Map lemmas -/

theorem mget_mdel_self {K V : Type} [DecidableEq K]
    (m : List (K × V)) (k : K) : mget (mdel m k) k = none := by
  induction m with
  | nil => simp [mget, mdel]
  | cons e t ih =>
    by_cases he : e.1 = k
    · simpa [mdel, he] using ih
    · simpa [mget, mdel, he] using ih

theorem mget_mdel_ne {K V : Type} [DecidableEq K]
    (m : List (K × V)) (k k2 : K) (h : k2 ≠ k) :
    mget (mdel m k) k2 = mget m k2 := by
  have hs : ¬ (k = k2) := fun hh => h hh.symm
  induction m with
  | nil => simp [mget, mdel]
  | cons e t ih =>
    by_cases he : e.1 = k
    · have h2 : ¬ e.1 = k2 := by rw [he]; exact hs
      simpa [mget, mdel, he, h2, hs] using ih
    · by_cases he2 : e.1 = k2
      · simp [mget, mdel, he, he2, h]
      · simpa [mget, mdel, he, he2] using ih

theorem mget_mset_self {K V : Type} [DecidableEq K]
    (m : List (K × V)) (k : K) (v : V) : mget (mset m k v) k = some v := by
  simp [mget, mset]

theorem mget_mset_ne {K V : Type} [DecidableEq K]
    (m : List (K × V)) (k k2 : K) (v : V) (h : k2 ≠ k) :
    mget (mset m k v) k2 = mget m k2 := by
  have hne : ¬ (k = k2) := fun hh => h hh.symm
  simp [mget, mset, hne, mget_mdel_ne m k k2 h]

theorem satAdd_ge_left (a b : Nat) (h : a ≤ BMAX) : a ≤ satAdd a b := by
  simp only [satAdd]
  omega

@[simp] theorem sumBal_nil (id : AssetId) : sumBal id [] = 0 := rfl

@[simp] theorem sumBal_cons (id : AssetId) (e) (t) :
    sumBal id (e :: t) =
      (if e.1.1 = id then e.2.balance else 0) + sumBal id t := rfl

theorem mget_some_mem_keys {K V : Type} [DecidableEq K]
    {m : List (K × V)} {k : K} {v : V} (h : mget m k = some v) :
    k ∈ m.map (fun e => e.1) := by
  induction m with
  | nil => simp [mget] at h
  | cons e t ih =>
    by_cases he : e.1 = k
    · simp [he]
    · simp only [List.map_cons, List.mem_cons]
      exact Or.inr (ih (by simpa [mget, he] using h))

theorem mdel_of_none {K V : Type} [DecidableEq K]
    {m : List (K × V)} {k : K} (h : mget m k = none) : mdel m k = m := by
  induction m with
  | nil => simp [mdel]
  | cons e t ih =>
    by_cases he : e.1 = k
    · simp [mget, he] at h
    · simp only [mdel, if_neg he]
      rw [ih (by simpa [mget, he] using h)]

theorem sumBal_mdel_other (id : AssetId) (who : AccountId)
    (m : List ((AssetId × AccountId) × AssetAccount)) (id2 : AssetId)
    (h : id2 ≠ id) : sumBal id (mdel m (id2, who)) = sumBal id m := by
  induction m with
  | nil => simp [mdel]
  | cons e t ih =>
    by_cases he : e.1 = (id2, who)
    · have h2 : ¬ e.1.1 = id := by rw [he]; exact h
      simp only [mdel, if_pos he, sumBal_cons, if_neg h2, ih]
      omega
    · simp only [mdel, if_neg he, sumBal_cons, ih]

theorem sumBal_mset (id : AssetId) (who : AccountId)
    (m : List ((AssetId × AccountId) × AssetAccount)) (a : AssetAccount) :
    sumBal id (mset m (id, who) a) =
      a.balance + sumBal id (mdel m (id, who)) := by
  simp [mset]

theorem sumBal_mset_other (id : AssetId) (id2 : AssetId) (who : AccountId)
    (m : List ((AssetId × AccountId) × AssetAccount)) (a : AssetAccount)
    (h : id2 ≠ id) : sumBal id (mset m (id2, who) a) = sumBal id m := by
  have h2 : ¬ (id2 = id) := h
  simp only [mset, sumBal_cons, if_neg h2,
    sumBal_mdel_other id who m id2 h]
  omega

theorem sumBal_split (id : AssetId) (who : AccountId)
    (m : List ((AssetId × AccountId) × AssetAccount)) (a : AssetAccount)
    (hnd : keysND m) (h : mget m (id, who) = some a) :
    sumBal id m = a.balance + sumBal id (mdel m (id, who)) := by
  induction m with
  | nil => simp [mget] at h
  | cons e t ih =>
    rw [keysND, List.map_cons, List.nodup_cons] at hnd
    by_cases he : e.1 = (id, who)
    · have ha : e.2 = a := by simpa [mget, he] using h
      have hnone : mget t (id, who) = none := by
        cases hg : mget t (id, who) with
        | none => rfl
        | some v => exact absurd (he ▸ mget_some_mem_keys hg) hnd.1
      have h11 : e.1.1 = id := by rw [he]
      simp only [mdel, if_pos he, mdel_of_none hnone, sumBal_cons,
        if_pos h11, ha]
    · have hh : mget t (id, who) = some a := by simpa [mget, he] using h
      simp only [mdel, if_neg he, sumBal_cons]
      rw [ih hnd.2 hh]
      omega

theorem sumBal_filter_self (id : AssetId)
    (m : List ((AssetId × AccountId) × AssetAccount)) :
    sumBal id (m.filter (fun e => ¬ e.1.1 = id)) = 0 := by
  induction m with
  | nil => simp
  | cons e t ih =>
    rw [List.filter_cons]
    by_cases he : e.1.1 = id
    · rw [if_neg (by simp [he])]
      exact ih
    · rw [if_pos (by simp [he]), sumBal_cons, if_neg he, ih]

theorem sumBal_filter_other (id id2 : AssetId)
    (m : List ((AssetId × AccountId) × AssetAccount)) (h : id2 ≠ id) :
    sumBal id2 (m.filter (fun e => ¬ e.1.1 = id)) = sumBal id2 m := by
  induction m with
  | nil => simp
  | cons e t ih =>
    rw [List.filter_cons]
    by_cases he : e.1.1 = id
    · have h2 : ¬ e.1.1 = id2 := by rw [he]; exact fun hh => h hh.symm
      rw [if_neg (by simp [he]), ih, sumBal_cons, if_neg h2]
      omega
    · rw [if_pos (by simp [he]), sumBal_cons, sumBal_cons, ih]

theorem mem_mdel {K V : Type} [DecidableEq K]
    {m : List (K × V)} {k : K} {e : K × V}
    (h : e ∈ mdel m k) : e ∈ m := by
  induction m with
  | nil => simp [mdel] at h
  | cons e2 t ih =>
    by_cases he : e2.1 = k
    · simp only [mdel, if_pos he] at h
      exact List.mem_cons_of_mem _ (ih h)
    · simp only [mdel, if_neg he, List.mem_cons] at h
      rcases h with h | h
      · exact h ▸ List.mem_cons_self _ _
      · exact List.mem_cons_of_mem _ (ih h)

theorem mem_mset {K V : Type} [DecidableEq K]
    {m : List (K × V)} {k : K} {v : V} {e : K × V}
    (h : e ∈ mset m k v) : e = (k, v) ∨ e ∈ m := by
  rcases List.mem_cons.mp h with h2 | h2
  · exact Or.inl h2
  · exact Or.inr (mem_mdel h2)

theorem keysND_mdel {K V : Type} [DecidableEq K]
    {m : List (K × V)} (k : K) (h : keysND m) : keysND (mdel m k) := by
  induction m with
  | nil => simpa [mdel] using h
  | cons e t ih =>
    rw [keysND, List.map_cons, List.nodup_cons] at h
    by_cases he : e.1 = k
    · simp only [mdel, if_pos he]
      exact ih h.2
    · simp only [mdel, if_neg he]
      rw [keysND, List.map_cons, List.nodup_cons]
      refine ⟨?_, ih h.2⟩
      intro hmem
      apply h.1
      obtain ⟨x, hx, hxe⟩ := List.mem_map.mp hmem
      exact List.mem_map.mpr ⟨x, mem_mdel hx, hxe⟩

theorem mem_keys_isSome {K V : Type} [DecidableEq K]
    {m : List (K × V)} {k : K}
    (h : k ∈ m.map (fun e => e.1)) : (mget m k).isSome := by
  induction m with
  | nil => simp at h
  | cons e t ih =>
    by_cases he : e.1 = k
    · simp [mget, he]
    · rw [List.map_cons] at h
      rcases List.mem_cons.mp h with h2 | h2
      · exact absurd h2.symm he
      · simpa [mget, he] using ih h2

theorem keysND_mset {K V : Type} [DecidableEq K]
    {m : List (K × V)} (k : K) (v : V) (h : keysND m) :
    keysND (mset m k v) := by
  rw [mset, keysND, List.map_cons, List.nodup_cons]
  refine ⟨?_, keysND_mdel k h⟩
  intro hmem
  have h2 := mem_keys_isSome hmem
  rw [mget_mdel_self] at h2
  simp at h2

theorem keysND_filter {K V : Type} [DecidableEq K]
    {m : List (K × V)} (p : K × V → Bool) (h : keysND m) :
    keysND (m.filter p) := by
  rw [keysND] at *
  exact List.Nodup.sublist (List.Sublist.map _ (List.filter_sublist m)) h

theorem mget_isSome_of_mem {K V : Type} [DecidableEq K]
    {m : List (K × V)} {e : K × V} (h : e ∈ m) : (mget m e.1).isSome := by
  induction m with
  | nil => simp at h
  | cons e2 t ih =>
    rcases List.mem_cons.mp h with h2 | h2
    · subst h2; simp [mget]
    · by_cases he : e2.1 = e.1
      · simp [mget, he]
      · simpa [mget, he] using ih h2

/-! ## Helper-effect lemmas -/

theorem currencyReserve_ok {s : PalletState} {w : AccountId} {a : Nat}
    {s2 : PalletState} (h : currencyReserve s w a = .ok s2) :
    a ≤ freeOf s w ∧
      s2 = { s with
        natFree := mset s.natFree w (freeOf s w - a)
        natReserved := mset s.natReserved w (reservedOf s w + a) } := by
  unfold currencyReserve at h
  split at h <;> simp_all

@[simp] theorem settle_debit_burnCertificate (s : PalletState)
    (id : AssetId) (t : AccountId) (acc : AssetAccount) (nb : Nat)
    (d : AssetDetails) :
    (settle_debit s id t acc nb d).burnCertificate = s.burnCertificate := by
  unfold settle_debit
  repeat' split
  all_goals rfl

@[simp] theorem settle_debit_events (s : PalletState) (id : AssetId)
    (t : AccountId) (acc : AssetAccount) (nb : Nat) (d : AssetDetails) :
    (settle_debit s id t acc nb d).events = s.events := by
  unfold settle_debit
  repeat' split
  all_goals rfl

@[simp] theorem settle_debit_metadata (s : PalletState) (id : AssetId)
    (t : AccountId) (acc : AssetAccount) (nb : Nat) (d : AssetDetails) :
    (settle_debit s id t acc nb d).metadata = s.metadata := by
  unfold settle_debit
  repeat' split
  all_goals rfl

@[simp] theorem settle_debit_approvals (s : PalletState) (id : AssetId)
    (t : AccountId) (acc : AssetAccount) (nb : Nat) (d : AssetDetails) :
    (settle_debit s id t acc nb d).approvals = s.approvals := by
  unfold settle_debit
  repeat' split
  all_goals rfl

@[simp] theorem settle_debit_custodian (s : PalletState) (id : AssetId)
    (t : AccountId) (acc : AssetAccount) (nb : Nat) (d : AssetDetails) :
    (settle_debit s id t acc nb d).custodian = s.custodian := by
  unfold settle_debit
  repeat' split
  all_goals rfl

@[simp] theorem settle_debit_lastNonce (s : PalletState) (id : AssetId)
    (t : AccountId) (acc : AssetAccount) (nb : Nat) (d : AssetDetails) :
    (settle_debit s id t acc nb d).lastNonce = s.lastNonce := by
  unfold settle_debit
  repeat' split
  all_goals rfl

@[simp] theorem settle_debit_natFree (s : PalletState) (id : AssetId)
    (t : AccountId) (acc : AssetAccount) (nb : Nat) (d : AssetDetails) :
    (settle_debit s id t acc nb d).natFree = s.natFree := by
  unfold settle_debit
  repeat' split
  all_goals rfl

@[simp] theorem settle_debit_natReserved (s : PalletState) (id : AssetId)
    (t : AccountId) (acc : AssetAccount) (nb : Nat) (d : AssetDetails) :
    (settle_debit s id t acc nb d).natReserved = s.natReserved := by
  unfold settle_debit
  repeat' split
  all_goals rfl

@[simp] theorem settle_debit_frozenOverlay (s : PalletState) (id : AssetId)
    (t : AccountId) (acc : AssetAccount) (nb : Nat) (d : AssetDetails) :
    (settle_debit s id t acc nb d).frozenOverlay = s.frozenOverlay := by
  unfold settle_debit
  repeat' split
  all_goals rfl

@[simp] theorem settle_debit_sysProviders (s : PalletState) (id : AssetId)
    (t : AccountId) (acc : AssetAccount) (nb : Nat) (d : AssetDetails) :
    (settle_debit s id t acc nb d).sysProviders = s.sysProviders := by
  unfold settle_debit
  repeat' split
  all_goals rfl

theorem decrease_balance_effects (s : PalletState) (id : AssetId)
    (t : AccountId) (amount : Nat) (f : DebitFlags) (ca : Option AccountId)
    (act : Nat) (s2 : PalletState)
    (h : decrease_balance s id t amount f ca = .ok (act, s2)) :
    s2.burnCertificate = s.burnCertificate ∧ s2.events = s.events ∧
      s2.metadata = s.metadata ∧ s2.approvals = s.approvals ∧
      s2.custodian = s.custodian ∧ s2.natFree = s.natFree ∧
      s2.natReserved = s.natReserved ∧ s2.lastNonce = s.lastNonce ∧
      s2.frozenOverlay = s.frozenOverlay := by
  unfold decrease_balance at h
  simp only [bind, Except.bind, pure, Except.pure] at h
  repeat' split at h
  all_goals
    try (simp only [Except.ok.injEq, Prod.mk.injEq] at h
         obtain ⟨hv, hs⟩ := h
         subst hs)
  all_goals simp_all

theorem credit_dest_effects (cfg : Config) (s : PalletState) (id : AssetId)
    (dest : AccountId) (credit : Nat) (d : AssetDetails)
    (p : AssetDetails × PalletState)
    (h : credit_dest cfg s id dest credit d = .ok p) :
    p.2.burnCertificate = s.burnCertificate ∧ p.2.events = s.events ∧
      p.2.metadata = s.metadata ∧ p.2.approvals = s.approvals ∧
      p.2.custodian = s.custodian ∧ p.2.natFree = s.natFree ∧
      p.2.natReserved = s.natReserved ∧ p.2.lastNonce = s.lastNonce ∧
      p.2.frozenOverlay = s.frozenOverlay ∧ p.2.hooks = s.hooks ∧
      p.2.asset = s.asset ∧ p.2.sysProviders = s.sysProviders := by
  unfold credit_dest new_account incConsumers incSufficients at h
  repeat' split at h
  all_goals
    try (simp only [Except.ok.injEq] at h
         rw [← h])
  all_goals
    first
      | (simp_all; done)
      | (rename_i heq
         repeat' split at heq
         all_goals
           try (simp only [Except.ok.injEq, Prod.mk.injEq] at heq
                obtain ⟨h1, h2, h3⟩ := heq
                subst h2
                subst h3)
         all_goals simp_all
         done)

theorem increase_balance_effects (cfg : Config) (s : PalletState)
    (id : AssetId) (b : AccountId) (amount : Nat) (ci : Option AccountId)
    (s2 : PalletState) (h : increase_balance cfg s id b amount ci = .ok s2) :
    s2.burnCertificate = s.burnCertificate ∧ s2.events = s.events ∧
      s2.metadata = s.metadata ∧ s2.approvals = s.approvals ∧
      s2.custodian = s.custodian ∧ s2.natFree = s.natFree ∧
      s2.natReserved = s.natReserved ∧ s2.lastNonce = s.lastNonce ∧
      s2.frozenOverlay = s.frozenOverlay ∧ s2.hooks = s.hooks := by
  unfold increase_balance new_account incConsumers incSufficients at h
  simp only [bind, Except.bind, pure, Except.pure] at h
  repeat' split at h
  all_goals
    try (simp only [Except.ok.injEq] at h
         subst h)
  all_goals
    first
      | (simp_all; done)
      | (rename_i heq
         repeat' split at heq
         all_goals try (simp only [Except.ok.injEq] at heq; rw [← heq])
         all_goals simp_all
         done)

theorem do_mint_effects (cfg : Config) (s : PalletState) (id : AssetId)
    (b : AccountId) (amount : Nat) (ci : Option AccountId) (s2 : PalletState)
    (h : do_mint cfg s id b amount ci = .ok s2) :
    s2.burnCertificate = s.burnCertificate ∧
      s2.events = s.events ++ [Event.Issued id b amount] ∧
      s2.hooks = s.hooks := by
  unfold do_mint at h
  simp only [bind, Except.bind, pure, Except.pure] at h
  cases hib : increase_balance cfg s id b amount ci with
  | error e => rw [hib] at h; simp at h
  | ok s1 =>
    rw [hib] at h
    simp only [Except.ok.injEq] at h
    subst h
    obtain ⟨h1, h2, _, _, _, _, _, _, _, h10⟩ :=
      increase_balance_effects cfg s id b amount ci s1 hib
    simp [h1, h2, h10]

theorem do_burn_effects (s : PalletState) (id : AssetId) (t : AccountId)
    (amount : Nat) (ca : Option AccountId) (f : DebitFlags) (act : Nat)
    (s2 : PalletState) (h : do_burn s id t amount ca f = .ok (act, s2)) :
    s2.burnCertificate = s.burnCertificate ∧
      s2.events = s.events ++ [Event.Burned id t act] := by
  unfold do_burn at h
  simp only [bind, Except.bind, pure, Except.pure] at h
  cases hdb : decrease_balance s id t amount f ca with
  | error e => rw [hdb] at h; simp at h
  | ok v =>
    rw [hdb] at h
    simp only [Except.ok.injEq, Prod.mk.injEq] at h
    obtain ⟨hv, hs⟩ := h
    subst hs
    obtain ⟨h1, h2, _⟩ :=
      decrease_balance_effects s id t amount f ca v.1 v.2 (by simpa using hdb)
    simp [h1, h2, hv]

theorem do_transfer_effects (cfg : Config) (s : PalletState) (id : AssetId)
    (src dst : AccountId) (amount : Nat) (adm : Option AccountId)
    (f : TransferFlags) (n : Nat) (s2 : PalletState)
    (h : do_transfer cfg s id src dst amount adm f = .ok (n, s2)) :
    s2.burnCertificate = s.burnCertificate ∧
      s2.metadata = s.metadata ∧ s2.approvals = s.approvals ∧
      s2.custodian = s.custodian ∧ s2.natFree = s.natFree ∧
      s2.natReserved = s.natReserved ∧ s2.lastNonce = s.lastNonce ∧
      s2.frozenOverlay = s.frozenOverlay ∧
      (amount = 0 → s2 = s) ∧
      (¬ amount = 0 →
        s2.events = s.events ++ [Event.Transferred id src dst n]) := by
  unfold do_transfer at h
  simp only [bind, Except.bind, pure, Except.pure] at h
  repeat' split at h
  all_goals
    try (simp only [Except.ok.injEq, Prod.mk.injEq] at h
         obtain ⟨hv, hs⟩ := h
         subst hs)
  all_goals
    first
      | (simp_all; done)
      | (rename_i heq
         obtain ⟨e1, e2, e3, e4, e5, e6, e7, e8, e9, e10, e11, e12⟩ :=
           credit_dest_effects _ _ _ _ _ _ _ heq
         simp_all
         done)
      | (rename_i heq hx1
         obtain ⟨e1, e2, e3, e4, e5, e6, e7, e8, e9, e10, e11, e12⟩ :=
           credit_dest_effects _ _ _ _ _ _ _ heq
         simp_all
         done)
      | (rename_i heq hx1 hx2
         obtain ⟨e1, e2, e3, e4, e5, e6, e7, e8, e9, e10, e11, e12⟩ :=
           credit_dest_effects _ _ _ _ _ _ _ heq
         simp_all
         done)
      | (rename_i heq hx1 hx2 hx3
         obtain ⟨e1, e2, e3, e4, e5, e6, e7, e8, e9, e10, e11, e12⟩ :=
           credit_dest_effects _ _ _ _ _ _ _ heq
         simp_all
         done)

theorem do_approve_transfer_effects (cfg : Config) (s : PalletState)
    (id : AssetId) (o dl : AccountId) (amount : Nat) (s2 : PalletState)
    (h : do_approve_transfer cfg s id o dl amount = .ok s2) :
    s2.burnCertificate = s.burnCertificate ∧
      s2.events = s.events ++ [Event.ApprovedTransfer id o dl amount] ∧
      s2.hooks = s.hooks ∧ s2.account = s.account ∧
      s2.metadata = s.metadata := by
  unfold do_approve_transfer currencyReserve at h
  simp only [bind, Except.bind, pure, Except.pure] at h
  repeat' split at h
  all_goals
    try (simp only [Except.ok.injEq] at h
         subst h)
  all_goals
    first
      | (simp_all; done)
      | (rename_i heq
         repeat' split at heq
         all_goals
           try (simp only [Except.ok.injEq, Prod.mk.injEq] at heq
                rw [← heq])
         all_goals simp_all
         done)

theorem do_transfer_approved_effects (cfg : Config) (s : PalletState)
    (id : AssetId) (o dl dst : AccountId) (amount : Nat) (s2 : PalletState)
    (h : do_transfer_approved cfg s id o dl dst amount = .ok s2) :
    s2.burnCertificate = s.burnCertificate ∧
      (amount = 0 → s2.events = s.events) ∧
      (¬ amount = 0 →
        ∃ n, s2.events = s.events ++ [Event.Transferred id o dst n]) := by
  unfold do_transfer_approved at h
  simp only [bind, Except.bind, pure, Except.pure] at h
  split at h
  · simp at h
  next ap hap =>
    split at h
    · simp at h
    · split at h
      · simp at h
      next v heq =>
        obtain ⟨n2, s2p⟩ := v
        obtain ⟨hbc, _, _, _, _, _, _, _, hz, hnz⟩ :=
          do_transfer_effects cfg s id o dst amount none _ n2 s2p heq
        unfold currencyUnreserve at h
        repeat' split at h
        all_goals
          try (simp only [Except.ok.injEq] at h
               subst h)
        all_goals
          refine ⟨by simp_all, fun h0 => by simp_all,
            fun h0 => ⟨n2, by simp_all⟩⟩

theorem do_set_metadata_effects (cfg : Config) (s : PalletState)
    (id : AssetId) (who : AccountId) (name symbol : List Nat)
    (decimals : Nat) (s2 : PalletState)
    (h : do_set_metadata cfg s id who name symbol decimals = .ok s2) :
    s2.burnCertificate = s.burnCertificate ∧
      s2.events = s.events ++ [Event.MetadataSet id name symbol decimals
        false] ∧
      s2.hooks = s.hooks ∧ s2.asset = s.asset ∧
      s2.account = s.account := by
  unfold do_set_metadata currencyReserve currencyUnreserve at h
  simp only [bind, Except.bind, pure, Except.pure] at h
  repeat' split at h
  all_goals
    try (simp only [Except.ok.injEq] at h
         subst h)
  all_goals
    first
      | (simp_all; done)
      | (rename_i heq
         repeat' split at heq
         all_goals
           try (simp only [Except.ok.injEq, Prod.mk.injEq] at heq
                rw [← heq])
         all_goals simp_all
         done)

theorem update_metadata_effects (cfg : Config) (s : PalletState)
    (id : AssetId) (caller : AccountId) (url dataIpfs : List Nat)
    (s2 : PalletState)
    (h : update_metadata cfg s id caller url dataIpfs = .ok s2) :
    s2.burnCertificate = s.burnCertificate ∧
      s2.events = s.events ++ [Event.MetadataUpdated id url dataIpfs] ∧
      s2.hooks = s.hooks ∧ s2.asset = s.asset ∧
      s2.account = s.account := by
  unfold update_metadata at h
  simp only [bind, Except.bind, pure, Except.pure] at h
  repeat' split at h
  all_goals
    try (simp only [Except.ok.injEq] at h
         subst h)
  all_goals
    first
      | (simp_all; done)
      | (rename_i heq
         repeat' split at heq
         all_goals
           try (simp only [Except.ok.injEq, Prod.mk.injEq] at heq
                rw [← heq])
         all_goals simp_all
         done)

theorem do_force_create_effects (s : PalletState) (id : AssetId)
    (owner : AccountId) (suf : Bool) (minB : Nat) (s2 : PalletState)
    (h : do_force_create s id owner suf minB = .ok s2) :
    s2.burnCertificate = s.burnCertificate ∧
      s2.events = s.events ++ [Event.ForceCreated id owner] ∧
      s2.hooks = s.hooks ∧ s2.account = s.account := by
  unfold do_force_create at h
  repeat' split at h
  all_goals
    try (simp only [Except.ok.injEq] at h
         subst h)
  all_goals
    first
      | (simp_all; done)
      | (rename_i heq
         repeat' split at heq
         all_goals
           try (simp only [Except.ok.injEq, Prod.mk.injEq] at heq
                rw [← heq])
         all_goals simp_all
         done)

theorem do_touch_effects (cfg : Config) (s : PalletState) (id : AssetId)
    (who : AccountId) (s2 : PalletState)
    (h : do_touch cfg s id who = .ok s2) :
    s2.burnCertificate = s.burnCertificate ∧ s2.events = s.events ∧
      s2.hooks = s.hooks ∧ s2.metadata = s.metadata := by
  unfold do_touch new_account currencyReserve at h
  simp only [bind, Except.bind, pure, Except.pure] at h
  repeat' split at h
  all_goals
    try (simp only [Except.ok.injEq] at h
         subst h)
  all_goals
    first
      | (simp_all; done)
      | (rename_i heq
         repeat' split at heq
         all_goals
           try (simp only [Except.ok.injEq, Prod.mk.injEq] at heq
                rw [← heq])
         all_goals simp_all
         done)

theorem do_refund_effects (s : PalletState) (id : AssetId) (who : AccountId)
    (ab : Bool) (s2 : PalletState) (h : do_refund s id who ab = .ok s2) :
    s2.burnCertificate = s.burnCertificate ∧ s2.events = s.events ∧
      s2.metadata = s.metadata ∧
      s2.hooks = s.hooks ++ [(id, who)] := by
  unfold do_refund currencyUnreserve at h
  simp only [bind, Except.bind, pure, Except.pure] at h
  repeat' split at h
  all_goals
    try (simp only [Except.ok.injEq] at h
         subst h)
  all_goals
    first
      | (simp_all; done)
      | (rename_i heq
         repeat' split at heq
         all_goals
           try (simp only [Except.ok.injEq, Prod.mk.injEq] at heq
                rw [← heq])
         all_goals simp_all
         done)

theorem get_new_asset_id_effects (s : PalletState) (owner : AccountId)
    (id : AssetId) (s2 : PalletState)
    (h : get_new_asset_id s owner = .ok (id, s2)) :
    id = Nat.pair (s.lastNonce + 1) owner ∧
      s2 = { s with lastNonce := s.lastNonce + 1 } ∧
      mget s.asset id = none := by
  unfold get_new_asset_id at h
  split at h
  · simp at h
  · simp only [Except.ok.injEq, Prod.mk.injEq] at h
    obtain ⟨h1, h2⟩ := h
    subst h2
    simp_all

theorem foldl_decRefs (l : List ((AssetId × AccountId) × AssetAccount))
    (s : PalletState) :
    ∃ C D,
      l.foldl
        (fun st e =>
          match e.2.reason with
          | .consumer => decConsumers st e.1.2
          | .sufficient => decSufficients st e.1.2
          | .depositHeld _ => st) s =
      { s with sysConsumers := C, sysSufficients := D } := by
  induction l generalizing s with
  | nil => exact ⟨s.sysConsumers, s.sysSufficients, rfl⟩
  | cons e t ih =>
    rw [List.foldl_cons]
    cases hr : e.2.reason with
    | consumer =>
      obtain ⟨C, D, hcd⟩ := ih (decConsumers s e.1.2)
      refine ⟨C, D, ?_⟩
      show List.foldl _ (decConsumers s e.1.2) t = _
      rw [hcd]
      simp [decConsumers]
    | sufficient =>
      obtain ⟨C, D, hcd⟩ := ih (decSufficients s e.1.2)
      refine ⟨C, D, ?_⟩
      show List.foldl _ (decSufficients s e.1.2) t = _
      rw [hcd]
      simp [decSufficients]
    | depositHeld dep =>
      obtain ⟨C, D, hcd⟩ := ih s
      refine ⟨C, D, ?_⟩
      show List.foldl _ s t = _
      rw [hcd]

theorem foldl_unreserve (l : List ((AssetId × AccountId × AccountId) ×
    Approval)) (s : PalletState) :
    ∃ NF NR,
      l.foldl (fun st e => currencyUnreserve st e.1.2.1 e.2.deposit) s =
      { s with natFree := NF, natReserved := NR } := by
  induction l generalizing s with
  | nil => exact ⟨s.natFree, s.natReserved, rfl⟩
  | cons e t ih =>
    rw [List.foldl_cons]
    obtain ⟨NF, NR, hnf⟩ := ih (currencyUnreserve s e.1.2.1 e.2.deposit)
    rw [hnf]
    exact ⟨NF, NR, by simp [currencyUnreserve, freeOf, reservedOf]⟩

theorem do_destroy_effects (s : PalletState) (id : AssetId)
    (w : DestroyWitness) (mco : Option AccountId) (s2 : PalletState)
    (h : do_destroy s id w mco = .ok s2) :
    s2.burnCertificate = s.burnCertificate ∧
      s2.events = s.events ++ [Event.Destroyed id] ∧
      s2.hooks = s.hooks ++
        (s.account.filter (fun e => e.1.1 = id)).map
          (fun e => (id, e.1.2)) ∧
      mget s2.asset id = none ∧
      s2.account = s.account.filter (fun e => ¬ e.1.1 = id) ∧
      s2.asset = mdel s.asset id := by
  unfold do_destroy at h
  simp only [bind, Except.bind, pure, Except.pure] at h
  repeat' split at h
  all_goals try simp at h
  all_goals
    obtain ⟨C, D, hcd⟩ := foldl_decRefs
      (s.account.filter (fun e => e.1.1 = id)) s
    rw [hcd] at h
    obtain ⟨NF, NR, hnf⟩ := foldl_unreserve
      (s.approvals.filter (fun e => e.1.1 = id)) _
    rw [hnf] at h
    unfold currencyUnreserve at h
    simp only [Except.ok.injEq] at h
    subst h
    simp [mget_mdel_self]

/-! ## The certificate / event shape of dispatch -/

@[simp] theorem currencyUnreserve_burnCertificate (s : PalletState)
    (w : AccountId) (a : Nat) :
    (currencyUnreserve s w a).burnCertificate = s.burnCertificate := rfl

@[simp] theorem currencyUnreserve_events (s : PalletState)
    (w : AccountId) (a : Nat) :
    (currencyUnreserve s w a).events = s.events := rfl

@[simp] theorem currencyRepatriateReserved_burnCertificate
    (s : PalletState) (w d : AccountId) (a : Nat) :
    (currencyRepatriateReserved s w d a).burnCertificate =
      s.burnCertificate := by
  unfold currencyRepatriateReserved
  split <;> rfl

@[simp] theorem currencyRepatriateReserved_events (s : PalletState)
    (w d : AccountId) (a : Nat) :
    (currencyRepatriateReserved s w d a).events = s.events := by
  unfold currencyRepatriateReserved
  split <;> rfl

/-- The shape of every successful dispatch: the burn-certificate map is
either unchanged or exactly one `(holder, asset)` entry is created-or-added
(saturating), and the event log only grows — by a nonempty tail except for
the no-event successes catalogued in `noopEvent`. -/
theorem runCommand_shape (cfg : Config) (s : PalletState) (c : Command)
    (s2 : PalletState) (h : runCommand cfg s c = .ok s2) :
    (s2.burnCertificate = s.burnCertificate ∨
      ∃ w i a, s2.burnCertificate = mset s.burnCertificate (w, i)
        (match mget s.burnCertificate (w, i) with
          | some b => satAdd b a
          | none => a)) ∧
    ∃ t, s2.events = s.events ++ t ∧ (t = [] → noopEvent s c) := by
  cases c with
  | set_custodian origin cu =>
    cases origin with
    | signed w => simp [runCommand, bind, Except.bind, ensureRoot] at h
    | root =>
      simp only [runCommand, bind, Except.bind, pure, Except.pure,
        ensureRoot, Except.ok.injEq] at h
      subst h
      exact ⟨Or.inl rfl, [Event.CustodianSet cu], rfl, by simp⟩
  | create origin name symbol =>
    cases origin with
    | root => simp [runCommand, bind, Except.bind, ensureSigned] at h
    | signed owner =>
      simp only [runCommand, bind, Except.bind, pure, Except.pure,
        ensureSigned] at h
      split at h
      · simp at h
      next admin hcu =>
        split at h
        · simp at h
        next v hg =>
          obtain ⟨idv, s1⟩ := v
          obtain ⟨hid, hs1, hfresh⟩ :=
            get_new_asset_id_effects s owner idv s1 hg
          simp only [] at h
          split at h
          · simp at h
          next sr hr =>
            obtain ⟨hle, hsr⟩ := currencyReserve_ok hr
            obtain ⟨hbc, hev, _, _, _⟩ :=
              do_set_metadata_effects cfg _ idv owner name symbol 9 s2 h
            refine ⟨Or.inl ?_, [Event.Created idv owner,
              Event.MetadataSet idv name symbol 9 false], ?_, by simp⟩
            · simp [hbc, hsr, hs1]
            · simp [hev, hsr, hs1]
  | set_project_data origin id url dataIpfs =>
    cases origin with
    | root => simp [runCommand, bind, Except.bind, ensureSigned] at h
    | signed caller =>
      simp only [runCommand, bind, Except.bind, pure, Except.pure,
        ensureSigned] at h
      obtain ⟨hbc, hev, _, _, _⟩ :=
        update_metadata_effects cfg s id caller url dataIpfs s2 h
      exact ⟨Or.inl hbc, [Event.MetadataUpdated id url dataIpfs], hev,
        by simp⟩
  | force_create origin id owner isSuf minB =>
    cases origin with
    | signed w => simp [runCommand, bind, Except.bind, ensureRoot] at h
    | root =>
      simp only [runCommand, bind, Except.bind, pure, Except.pure,
        ensureRoot] at h
      obtain ⟨hbc, hev, _, _⟩ :=
        do_force_create_effects s id owner isSuf minB s2 h
      exact ⟨Or.inl hbc, [Event.ForceCreated id owner], hev, by simp⟩
  | destroy origin id w =>
    cases origin with
    | root =>
      simp only [runCommand] at h
      obtain ⟨hbc, hev, _, _, _, _⟩ := do_destroy_effects s id w none s2 h
      exact ⟨Or.inl hbc, [Event.Destroyed id], hev, by simp⟩
    | signed who =>
      simp only [runCommand] at h
      obtain ⟨hbc, hev, _, _, _, _⟩ :=
        do_destroy_effects s id w (some who) s2 h
      exact ⟨Or.inl hbc, [Event.Destroyed id], hev, by simp⟩
  | mint origin id amount =>
    cases origin with
    | root => simp [runCommand, bind, Except.bind, ensureSigned] at h
    | signed o =>
      simp only [runCommand, bind, Except.bind, pure, Except.pure,
        ensureSigned] at h
      split at h
      · simp at h
      next d hd =>
        obtain ⟨hbc, hev, _⟩ :=
          do_mint_effects cfg s id d.owner amount (some o) s2 h
        exact ⟨Or.inl hbc, [Event.Issued id d.owner amount], hev, by simp⟩
  | burn origin id who amount =>
    cases origin with
    | root => simp [runCommand, bind, Except.bind, ensureSigned] at h
    | signed o =>
      simp only [runCommand, bind, Except.bind, pure, Except.pure,
        ensureSigned] at h
      split at h
      · simp at h
      next v heq =>
        obtain ⟨act, s3⟩ := v
        obtain ⟨hbc, hev⟩ :=
          do_burn_effects s id who amount (some o) _ act s3 heq
        simp only [] at h
        simp only [Except.ok.injEq] at h
        subst h
        refine ⟨Or.inr ⟨who, id, amount, ?_⟩,
          [Event.Burned id who act,
           Event.CarbonCreditsBurned who id amount], ?_, by simp⟩
        · simp only [hbc]
          cases mget s.burnCertificate (who, id) <;> simp
        · simp [hev]
  | self_burn origin id amount =>
    cases origin with
    | root => simp [runCommand, bind, Except.bind, ensureSigned] at h
    | signed caller =>
      simp only [runCommand, bind, Except.bind, pure, Except.pure,
        ensureSigned] at h
      split at h
      · simp at h
      next v heq =>
        obtain ⟨act, s3⟩ := v
        obtain ⟨hbc, hev, _, _, _, _, _, _, _⟩ :=
          decrease_balance_effects s id caller amount _ none act s3 heq
        simp only [] at h
        simp only [Except.ok.injEq] at h
        subst h
        refine ⟨Or.inr ⟨caller, id, amount, ?_⟩,
          [Event.Burned id caller act,
           Event.CarbonCreditsBurned caller id amount], ?_, by simp⟩
        · simp only [hbc]
          cases mget s.burnCertificate (caller, id) <;> simp
        · simp [hev]
  | transfer origin id target amount =>
    cases origin with
    | root => simp [runCommand, bind, Except.bind, ensureSigned] at h
    | signed o =>
      simp only [runCommand, bind, Except.bind, pure, Except.pure,
        ensureSigned] at h
      split at h
      · simp at h
      next v heq =>
        obtain ⟨n, s3⟩ := v
        obtain ⟨hbc, _, _, _, _, _, _, _, hz, hnz⟩ :=
          do_transfer_effects cfg s id o target amount none _ n s3 heq
        simp only [] at h
        simp only [Except.ok.injEq] at h
        subst h
        refine ⟨Or.inl hbc, ?_⟩
        by_cases h0 : amount = 0
        · exact ⟨[], by simp [hz h0], fun _ => h0⟩
        · exact ⟨[Event.Transferred id o target n], hnz h0, by simp⟩
  | transfer_keep_alive origin id target amount =>
    cases origin with
    | root => simp [runCommand, bind, Except.bind, ensureSigned] at h
    | signed o =>
      simp only [runCommand, bind, Except.bind, pure, Except.pure,
        ensureSigned] at h
      split at h
      · simp at h
      next v heq =>
        obtain ⟨n, s3⟩ := v
        obtain ⟨hbc, _, _, _, _, _, _, _, hz, hnz⟩ :=
          do_transfer_effects cfg s id o target amount none _ n s3 heq
        simp only [] at h
        simp only [Except.ok.injEq] at h
        subst h
        refine ⟨Or.inl hbc, ?_⟩
        by_cases h0 : amount = 0
        · exact ⟨[], by simp [hz h0], fun _ => h0⟩
        · exact ⟨[Event.Transferred id o target n], hnz h0, by simp⟩
  | force_transfer origin id src dst amount =>
    cases origin with
    | root => simp [runCommand, bind, Except.bind, ensureSigned] at h
    | signed o =>
      simp only [runCommand, bind, Except.bind, pure, Except.pure,
        ensureSigned] at h
      split at h
      · simp at h
      next v heq =>
        obtain ⟨n, s3⟩ := v
        obtain ⟨hbc, _, _, _, _, _, _, _, hz, hnz⟩ :=
          do_transfer_effects cfg s id src dst amount (some o) _ n s3 heq
        simp only [] at h
        simp only [Except.ok.injEq] at h
        subst h
        refine ⟨Or.inl hbc, ?_⟩
        by_cases h0 : amount = 0
        · exact ⟨[], by simp [hz h0], fun _ => h0⟩
        · exact ⟨[Event.Transferred id src dst n], hnz h0, by simp⟩
  | freeze origin id who =>
    cases origin with
    | root => simp [runCommand, bind, Except.bind, ensureSigned] at h
    | signed o =>
      simp only [runCommand, bind, Except.bind, pure, Except.pure,
        ensureSigned] at h
      repeat' split at h
      all_goals
        first
          | (exfalso; simp at h; done)
          | (simp only [Except.ok.injEq] at h
             subst h
             exact ⟨Or.inl rfl, [Event.Frozen id who], rfl, by simp⟩)
  | thaw origin id who =>
    cases origin with
    | root => simp [runCommand, bind, Except.bind, ensureSigned] at h
    | signed o =>
      simp only [runCommand, bind, Except.bind, pure, Except.pure,
        ensureSigned] at h
      repeat' split at h
      all_goals
        first
          | (exfalso; simp at h; done)
          | (simp only [Except.ok.injEq] at h
             subst h
             exact ⟨Or.inl rfl, [Event.Thawed id who], rfl, by simp⟩)
  | freeze_asset origin id =>
    cases origin with
    | root => simp [runCommand, bind, Except.bind, ensureSigned] at h
    | signed o =>
      simp only [runCommand, bind, Except.bind, pure, Except.pure,
        ensureSigned] at h
      repeat' split at h
      all_goals
        first
          | (exfalso; simp at h; done)
          | (simp only [Except.ok.injEq] at h
             subst h
             exact ⟨Or.inl rfl, [Event.AssetFrozen id], rfl, by simp⟩)
  | thaw_asset origin id =>
    cases origin with
    | root => simp [runCommand, bind, Except.bind, ensureSigned] at h
    | signed o =>
      simp only [runCommand, bind, Except.bind, pure, Except.pure,
        ensureSigned] at h
      repeat' split at h
      all_goals
        first
          | (exfalso; simp at h; done)
          | (simp only [Except.ok.injEq] at h
             subst h
             exact ⟨Or.inl rfl, [Event.AssetThawed id], rfl, by simp⟩)
  | transfer_ownership origin id owner =>
    cases origin with
    | root => simp [runCommand, bind, Except.bind, ensureSigned] at h
    | signed o =>
      simp only [runCommand, bind, Except.bind, pure, Except.pure,
        ensureSigned] at h
      split at h
      · simp at h
      next d hd =>
        repeat' split at h
        all_goals try (exfalso; simp at h; done)
        · rename_i hperm hsame
          simp only [Except.ok.injEq] at h
          subst h
          refine ⟨Or.inl rfl, [], by simp, fun _ => ?_⟩
          intro d2 hd2
          rw [hd] at hd2
          cases hd2
          exact hsame
        · rename_i hperm hsame
          simp only [Except.ok.injEq] at h
          subst h
          exact ⟨Or.inl (by simp), [Event.OwnerChanged id owner],
            by simp, by simp⟩
  | force_set_metadata origin id name symbol url dataIpfs dec isFrozen =>
    cases origin with
    | signed w => simp [runCommand, bind, Except.bind, ensureRoot] at h
    | root =>
      simp only [runCommand, bind, Except.bind, pure, Except.pure,
        ensureRoot] at h
      repeat' split at h
      all_goals
        first
          | (exfalso; simp at h; done)
          | (simp only [Except.ok.injEq] at h
             subst h
             exact ⟨Or.inl rfl,
               [Event.MetadataSet id name symbol dec isFrozen,
                Event.MetadataUpdated id url dataIpfs], rfl, by simp⟩)
  | force_clear_metadata origin id =>
    cases origin with
    | signed w => simp [runCommand, bind, Except.bind, ensureRoot] at h
    | root =>
      simp only [runCommand, bind, Except.bind, pure, Except.pure,
        ensureRoot] at h
      repeat' split at h
      all_goals
        first
          | (exfalso; simp at h; done)
          | (simp only [Except.ok.injEq] at h
             subst h
             exact ⟨Or.inl (by simp), [Event.MetadataCleared id],
               by simp, by simp⟩)
  | force_asset_status origin id owner issuer admin freezer minB suf fr =>
    cases origin with
    | signed w => simp [runCommand, bind, Except.bind, ensureRoot] at h
    | root =>
      simp only [runCommand, bind, Except.bind, pure, Except.pure,
        ensureRoot] at h
      repeat' split at h
      all_goals
        first
          | (exfalso; simp at h; done)
          | (simp only [Except.ok.injEq] at h
             subst h
             exact ⟨Or.inl rfl, [Event.AssetStatusChanged id], rfl,
               by simp⟩)
  | approve_transfer origin id delegate amount =>
    cases origin with
    | root => simp [runCommand, bind, Except.bind, ensureSigned] at h
    | signed owner =>
      simp only [runCommand, bind, Except.bind, pure, Except.pure,
        ensureSigned] at h
      obtain ⟨hbc, hev, _, _, _⟩ :=
        do_approve_transfer_effects cfg s id owner delegate amount s2 h
      exact ⟨Or.inl hbc,
        [Event.ApprovedTransfer id owner delegate amount], hev, by simp⟩
  | cancel_approval origin id delegate =>
    cases origin with
    | root => simp [runCommand, bind, Except.bind, ensureSigned] at h
    | signed owner =>
      simp only [runCommand, bind, Except.bind, pure, Except.pure,
        ensureSigned] at h
      repeat' split at h
      all_goals
        first
          | (exfalso; simp at h; done)
          | (simp only [Except.ok.injEq] at h
             subst h
             exact ⟨Or.inl (by simp),
               [Event.ApprovalCancelled id owner delegate], by simp,
               by simp⟩)
  | force_cancel_approval origin id owner delegate =>
    cases origin with
    | root =>
      simp only [runCommand, bind, Except.bind, pure, Except.pure] at h
      repeat' split at h
      all_goals
        first
          | (exfalso; simp at h; done)
          | (simp only [Except.ok.injEq] at h
             subst h
             exact ⟨Or.inl (by simp),
               [Event.ApprovalCancelled id owner delegate], by simp,
               by simp⟩)
    | signed o =>
      simp only [runCommand, bind, Except.bind, pure, Except.pure] at h
      repeat' split at h
      all_goals
        first
          | (exfalso; simp at h; done)
          | (simp only [Except.ok.injEq] at h
             subst h
             exact ⟨Or.inl (by simp),
               [Event.ApprovalCancelled id owner delegate], by simp,
               by simp⟩)
  | transfer_approved origin id owner dst amount =>
    cases origin with
    | root => simp [runCommand, bind, Except.bind, ensureSigned] at h
    | signed delegate =>
      simp only [runCommand, bind, Except.bind, pure, Except.pure,
        ensureSigned] at h
      obtain ⟨hbc, hz, hnz⟩ :=
        do_transfer_approved_effects cfg s id owner delegate dst amount s2 h
      refine ⟨Or.inl hbc, ?_⟩
      by_cases h0 : amount = 0
      · exact ⟨[], by simp [hz h0], fun _ => h0⟩
      · obtain ⟨n, hev⟩ := hnz h0
        exact ⟨[Event.Transferred id owner dst n], hev, by simp⟩
  | touch origin id =>
    cases origin with
    | root => simp [runCommand, bind, Except.bind, ensureSigned] at h
    | signed who =>
      simp only [runCommand, bind, Except.bind, pure, Except.pure,
        ensureSigned] at h
      obtain ⟨hbc, hev, _, _⟩ := do_touch_effects cfg s id who s2 h
      exact ⟨Or.inl hbc, [], by simp [hev], fun _ => trivial⟩
  | refund origin id allowBurn =>
    cases origin with
    | root => simp [runCommand, bind, Except.bind, ensureSigned] at h
    | signed who =>
      simp only [runCommand, bind, Except.bind, pure, Except.pure,
        ensureSigned] at h
      obtain ⟨hbc, hev, _, _⟩ := do_refund_effects s id who allowBurn s2 h
      exact ⟨Or.inl hbc, [], by simp [hev], fun _ => trivial⟩

/-! ## Claim theorems -/

/-- C10: a `transfer` of amount 0 of an existing asset, signed by a holder
of that asset, succeeds and returns the state unchanged — no balance, no
account and no event (in particular no `Transferred`) is produced. -/
theorem C10_zero_transfer_noop (cfg : Config) (s : PalletState)
    (id : AssetId) (caller target : AccountId) (d : AssetDetails)
    (a : AssetAccount) (hd : mget s.asset id = some d)
    (ha : mget s.account (id, caller) = some a) (hb : 0 < a.balance) :
    runCommand cfg s (.transfer (.signed caller) id target 0) = .ok s := by
  simp [runCommand, bind, Except.bind, pure, Except.pure, ensureSigned,
    do_transfer]

/-- Witness: C10 at the concrete mock state. -/
theorem C10_zero_transfer_noop_witness :
    mget exampleState.asset 0 = some exampleDetails ∧
    mget exampleState.account (0, 1) = some exampleAccount ∧
    0 < exampleAccount.balance ∧
    runCommand mockCfg exampleState (.transfer (.signed 1) 0 2 0) =
      .ok exampleState :=
  ⟨by decide, by decide, by decide,
    C10_zero_transfer_noop mockCfg exampleState 0 1 2 exampleDetails
      exampleAccount (by decide) (by decide) (by decide)⟩

/-- C3: a successful `burn(id, who, amount)` and a successful
`self_burn(id, amount)` both create-or-add the commanded `amount` onto the
`(holder, id)` burn certificate (saturating) and emit
`CarbonCreditsBurned` carrying the commanded amount, directly after a
`Burned` event carrying the actual (possibly reap-raised) amount removed
from the supply. -/
theorem C3_burn_certificate (cfg : Config) (s : PalletState) (id : AssetId)
    (who : AccountId) (amount : Nat) :
    (∀ o s2, runCommand cfg s (.burn (.signed o) id who amount) = .ok s2 →
      mget s2.burnCertificate (who, id) = some
        (match mget s.burnCertificate (who, id) with
          | some b => satAdd b amount
          | none => amount) ∧
      ∃ actual, s2.events = s.events ++
        [Event.Burned id who actual,
         Event.CarbonCreditsBurned who id amount]) ∧
    (∀ s2, runCommand cfg s (.self_burn (.signed who) id amount) = .ok s2 →
      mget s2.burnCertificate (who, id) = some
        (match mget s.burnCertificate (who, id) with
          | some b => satAdd b amount
          | none => amount) ∧
      ∃ actual, s2.events = s.events ++
        [Event.Burned id who actual,
         Event.CarbonCreditsBurned who id amount]) := by
  constructor
  · intro o s2 h
    simp only [runCommand, bind, Except.bind, pure, Except.pure,
      ensureSigned] at h
    split at h
    · simp at h
    next v heq =>
      obtain ⟨act, s3⟩ := v
      obtain ⟨hbc, hev⟩ :=
        do_burn_effects s id who amount (some o) _ act s3 heq
      simp only [] at h
      simp only [Except.ok.injEq] at h
      subst h
      refine ⟨?_, act, ?_⟩
      · simp only [hbc]
        cases mget s.burnCertificate (who, id) <;> simp [mget_mset_self]
      · simp [hev]
  · intro s2 h
    simp only [runCommand, bind, Except.bind, pure, Except.pure,
      ensureSigned] at h
    split at h
    · simp at h
    next v heq =>
      obtain ⟨act, s3⟩ := v
      obtain ⟨hbc, hev, _, _, _, _, _, _, _⟩ :=
        decrease_balance_effects s id who amount _ none act s3 heq
      simp only [] at h
      simp only [Except.ok.injEq] at h
      subst h
      refine ⟨?_, act, ?_⟩
      · simp only [hbc]
        cases mget s.burnCertificate (who, id) <;> simp [mget_mset_self]
      · simp [hev]

/-- Witness: C3 at the concrete mock state, burning 95 out of 100 with
`min_balance` 10 — the reap raises the actual burn to 100, the certificate
and `CarbonCreditsBurned` still record the commanded 95. -/
theorem C3_burn_certificate_witness :
    (runCommand mockCfg exampleState (.burn (.signed 1) 0 1 95) =
        .ok (executeTx mockCfg exampleState (.burn (.signed 1) 0 1 95)) →
      mget (executeTx mockCfg exampleState
          (.burn (.signed 1) 0 1 95)).burnCertificate (1, 0) = some
        (match mget exampleState.burnCertificate (1, 0) with
          | some b => satAdd b 95
          | none => 95) ∧
      ∃ actual, (executeTx mockCfg exampleState
          (.burn (.signed 1) 0 1 95)).events = exampleState.events ++
        [Event.Burned 0 1 actual, Event.CarbonCreditsBurned 1 0 95]) ∧
    runCommand mockCfg exampleState (.burn (.signed 1) 0 1 95) =
      .ok (executeTx mockCfg exampleState (.burn (.signed 1) 0 1 95)) :=
  ⟨(C3_burn_certificate mockCfg exampleState 0 1 95).1 1
      (executeTx mockCfg exampleState (.burn (.signed 1) 0 1 95)),
    by decide⟩

/-- C4: a successful `destroy(id, witness)` fires the `died` hook exactly
once per removed account of the asset: the hook log is extended by the
asset's accounts in order, one hook per account. -/
theorem C4_destroy_died_hooks (cfg : Config) (s : PalletState)
    (id : AssetId) (w : DestroyWitness) (origin : Origin)
    (s2 : PalletState)
    (h : runCommand cfg s (.destroy origin id w) = .ok s2) :
    s2.hooks = s.hooks ++
      (s.account.filter (fun e => e.1.1 = id)).map (fun e => (id, e.1.2)) ∧
    s2.hooks.length = s.hooks.length +
      (s.account.filter (fun e => e.1.1 = id)).length := by
  cases origin with
  | root =>
    simp only [runCommand] at h
    obtain ⟨_, _, hh, _, _, _⟩ := do_destroy_effects s id w none s2 h
    exact ⟨hh, by simp [hh]⟩
  | signed who =>
    simp only [runCommand] at h
    obtain ⟨_, _, hh, _, _, _⟩ := do_destroy_effects s id w (some who) s2 h
    exact ⟨hh, by simp [hh]⟩

/-- Witness: C4 at a concrete state with two holder accounts — both are
reaped and both `died` hooks fire. -/
theorem C4_destroy_died_hooks_witness :
    (runCommand mockCfg destroyState
        (.destroy (.signed 1) 0 ⟨2, 2, 0⟩) =
      .ok (executeTx mockCfg destroyState
        (.destroy (.signed 1) 0 ⟨2, 2, 0⟩))) ∧
    (executeTx mockCfg destroyState
        (.destroy (.signed 1) 0 ⟨2, 2, 0⟩)).hooks =
      destroyState.hooks ++
        (destroyState.account.filter (fun e => e.1.1 = 0)).map
          (fun e => (0, e.1.2)) :=
  ⟨by decide,
    (C4_destroy_died_hooks mockCfg destroyState 0 ⟨2, 2, 0⟩ (.signed 1)
      (executeTx mockCfg destroyState (.destroy (.signed 1) 0 ⟨2, 2, 0⟩))
      (by decide)).1⟩

/-- C8: `set_project_data(id, url, data_ipfs)` succeeds only for the
asset's owner or the custodian (`NoPermission` otherwise); a permitted
call fails `CannotChangeAfterMint` when the supply is positive, and
`BadMetadata` when either string exceeds `StringLimit`; a failed call
leaves the state — in particular the stored metadata — unchanged under
transactional dispatch. -/
theorem C8_set_project_data (cfg : Config) (s : PalletState) (id : AssetId)
    (caller : AccountId) (url dataIpfs : List Nat) (d : AssetDetails)
    (hd : mget s.asset id = some d) :
    (∀ s2, runCommand cfg s
        (.set_project_data (.signed caller) id url dataIpfs) = .ok s2 →
      (caller = d.owner ∨ s.custodian = some caller) ∧ d.supply = 0 ∧
        url.length ≤ cfg.stringLimit ∧
        dataIpfs.length ≤ cfg.stringLimit) ∧
    (¬ (caller = d.owner ∨ s.custodian = some caller) →
      runCommand cfg s (.set_project_data (.signed caller) id url dataIpfs)
        = .error .NoPermission) ∧
    ((caller = d.owner ∨ s.custodian = some caller) → 0 < d.supply →
      runCommand cfg s (.set_project_data (.signed caller) id url dataIpfs)
        = .error .CannotChangeAfterMint) ∧
    ((caller = d.owner ∨ s.custodian = some caller) → d.supply = 0 →
      ¬ (url.length ≤ cfg.stringLimit ∧
          dataIpfs.length ≤ cfg.stringLimit) →
      runCommand cfg s (.set_project_data (.signed caller) id url dataIpfs)
        = .error .BadMetadata) ∧
    (∀ e, runCommand cfg s
        (.set_project_data (.signed caller) id url dataIpfs) = .error e →
      executeTx cfg s (.set_project_data (.signed caller) id url dataIpfs)
        = s) := by
  have hrc : runCommand cfg s
      (.set_project_data (.signed caller) id url dataIpfs) =
      update_metadata cfg s id caller url dataIpfs := rfl
  refine ⟨?_, ?_, ?_, ?_, ?_⟩
  · intro s2 h
    rw [hrc] at h
    simp only [update_metadata, hd, bind, Except.bind, pure,
      Except.pure] at h
    repeat' split at h
    all_goals try (exfalso; simp at h; done)
    rename_i h1 h2 h3 h4
    exact ⟨not_not.mp h1, by omega, not_not.mp h3, not_not.mp h4⟩
  · intro hperm
    rw [hrc]
    simp only [update_metadata, hd, bind, Except.bind, pure, Except.pure]
    rw [if_pos hperm]
  · intro hperm hsup
    rw [hrc]
    simp only [update_metadata, hd, bind, Except.bind, pure, Except.pure]
    rw [if_neg (not_not_intro hperm), if_pos hsup]
  · intro hperm hsup hbad
    rw [hrc]
    simp only [update_metadata, hd, bind, Except.bind, pure, Except.pure]
    rw [if_neg (not_not_intro hperm), if_neg (by omega)]
    by_cases hu : url.length ≤ cfg.stringLimit
    · rw [if_neg (not_not_intro hu),
        if_pos (fun hi => hbad ⟨hu, hi⟩)]
    · rw [if_pos hu]
  · intro e he
    simp [executeTx, he]

/-- Witness: C8 at the concrete mock state (caller 2 is neither owner nor
custodian, so the call fails `NoPermission` and dispatch is a no-op). -/
theorem C8_set_project_data_witness :
    mget exampleState.asset 0 = some exampleDetails ∧
    runCommand mockCfg exampleState
      (.set_project_data (.signed 2) 0 [7] [8]) =
        .error .NoPermission ∧
    executeTx mockCfg exampleState
      (.set_project_data (.signed 2) 0 [7] [8]) = exampleState :=
  ⟨by decide,
    (C8_set_project_data mockCfg exampleState 0 2 [7] [8] exampleDetails
        (by decide)).2.1 (by decide),
    (C8_set_project_data mockCfg exampleState 0 2 [7] [8] exampleDetails
        (by decide)).2.2.2.2 .NoPermission
      ((C8_set_project_data mockCfg exampleState 0 2 [7] [8] exampleDetails
        (by decide)).2.1 (by decide))⟩

/-- C9: starting from a state with no approval for
`(id, owner, delegate)`, a successful `approve_transfer` followed by a
successful `cancel_approval` restores the owner's reserved native balance
and the asset record — in particular its `approvals` count — to exactly
their prior values, and leaves no approval entry. -/
theorem C9_approve_cancel_roundtrip (cfg : Config) (s : PalletState)
    (id : AssetId) (owner delegate : AccountId) (amount : Nat)
    (d : AssetDetails) (s1 s2 : PalletState)
    (hd : mget s.asset id = some d)
    (hnone : mget s.approvals (id, owner, delegate) = none)
    (h1 : runCommand cfg s
      (.approve_transfer (.signed owner) id delegate amount) = .ok s1)
    (h2 : runCommand cfg s1
      (.cancel_approval (.signed owner) id delegate) = .ok s2) :
    reservedOf s2 owner = reservedOf s owner ∧
    mget s2.asset id = some d ∧
    mget s2.approvals (id, owner, delegate) = none := by
  have hrc1 : runCommand cfg s
      (.approve_transfer (.signed owner) id delegate amount) =
      do_approve_transfer cfg s id owner delegate amount := rfl
  rw [hrc1] at h1
  simp only [do_approve_transfer, hd, hnone, bind, Except.bind, pure,
    Except.pure] at h1
  split at h1
  · simp at h1
  split at h1
  · simp at h1
  next sr hr =>
    obtain ⟨hle, hsr⟩ := currencyReserve_ok hr
    subst hsr
    simp only [Except.ok.injEq] at h1
    subst h1
    simp only [runCommand, bind, Except.bind, pure, Except.pure,
      ensureSigned, mget_mset_self] at h2
    simp only [Except.ok.injEq] at h2
    subst h2
    refine ⟨?_, ?_, ?_⟩
    · simp [currencyUnreserve, reservedOf, mget_mset_self]
    · rw [mget_mset_self]
      simp
    · simp [mget_mdel_self]

/-- Witness: C9 at the concrete mock state — approve 5 from owner 1 to
delegate 2 on asset 0, then cancel. -/
theorem C9_approve_cancel_roundtrip_witness :
    reservedOf (executeTx mockCfg
        (executeTx mockCfg exampleState
          (.approve_transfer (.signed 1) 0 2 5))
        (.cancel_approval (.signed 1) 0 2)) 1 =
      reservedOf exampleState 1 ∧
    mget (executeTx mockCfg
        (executeTx mockCfg exampleState
          (.approve_transfer (.signed 1) 0 2 5))
        (.cancel_approval (.signed 1) 0 2)).asset 0 =
      some exampleDetails := by
  have happ := C9_approve_cancel_roundtrip mockCfg exampleState 0 1 2 5
    exampleDetails
    (executeTx mockCfg exampleState (.approve_transfer (.signed 1) 0 2 5))
    (executeTx mockCfg
      (executeTx mockCfg exampleState
        (.approve_transfer (.signed 1) 0 2 5))
      (.cancel_approval (.signed 1) 0 2))
    (by decide) (by decide) (by decide) (by decide)
  exact ⟨happ.1, happ.2.1⟩

/-- C6: `create(name, symbol)` fails `NoCustodian` when no custodian is
set; otherwise a success reserves `AssetDeposit` from the caller and
installs a fresh asset with the caller as owner, the custodian as issuer,
admin and freezer, `min_balance = 1`, `is_sufficient = false`, and (the
fresh id carrying no stale metadata) metadata with the given name and
symbol, `decimals = 9`, empty `url` and `data_ipfs`, and deposit
`MetadataDepositBase + MetadataDepositPerByte × (|name| + |symbol|)`,
also reserved from the caller. -/
theorem C6_create (cfg : Config) (s : PalletState) (name symbol : List Nat)
    (owner : AccountId) :
    (s.custodian = none →
      runCommand cfg s (.create (.signed owner) name symbol) =
        .error .NoCustodian) ∧
    (∀ admin s2, s.custodian = some admin →
      runCommand cfg s (.create (.signed owner) name symbol) = .ok s2 →
      ∃ id, mget s.asset id = none ∧
        mget s2.asset id = some
          { owner := owner, issuer := admin, admin := admin
            freezer := admin, supply := 0, deposit := cfg.assetDeposit
            min_balance := 1, is_sufficient := false, accounts := 0
            sufficients := 0, approvals := 0, is_frozen := false } ∧
        (mget s.metadata id = none →
          mget s2.metadata id = some
            { deposit := cfg.metadataDepositBase +
                cfg.metadataDepositPerByte * (name.length + symbol.length)
              name := name, symbol := symbol, url := [], data_ipfs := []
              decimals := 9, is_frozen := false } ∧
          reservedOf s2 owner = reservedOf s owner + cfg.assetDeposit +
            (cfg.metadataDepositBase +
              cfg.metadataDepositPerByte *
                (name.length + symbol.length)))) := by
  constructor
  · intro hcu
    simp only [runCommand, bind, Except.bind, ensureSigned, hcu]
    rfl
  · intro admin s2 hcu h
    simp only [runCommand, bind, Except.bind, pure, Except.pure,
      ensureSigned, hcu] at h
    split at h
    · simp at h
    next v hg =>
      obtain ⟨idv, s1⟩ := v
      obtain ⟨hid, hs1, hfresh⟩ := get_new_asset_id_effects s owner idv s1 hg
      subst hs1
      simp only [] at h
      split at h
      · simp at h
      next sr hr =>
        obtain ⟨hle, hsr⟩ := currencyReserve_ok hr
        subst hsr
        refine ⟨idv, hfresh, ?_, ?_⟩
        · obtain ⟨_, _, _, hasset, _⟩ :=
            do_set_metadata_effects cfg _ idv owner name symbol 9 s2 h
          rw [hasset]
          simp [mget_mset_self]
        · intro hmd
          simp only [do_set_metadata, bind, Except.bind, pure, Except.pure,
            mget_mset_self, hmd, AssetMetadata.default] at h
          repeat' split at h
          all_goals try (exfalso; simp_all; done)
          all_goals
            simp only [Except.ok.injEq] at h
          all_goals subst h
          · rename_i hdep v2 hr2
            obtain ⟨hle2, hsr2⟩ := currencyReserve_ok hr2
            subst hsr2
            constructor
            · rw [mget_mset_self]
              simp [AssetMetadata.default]
            · simp [reservedOf, freeOf, mget_mset_self]
          · constructor
            · rw [mget_mset_self]
              simp [AssetMetadata.default]
            · rename_i hname hsymb hdep
              simp only [currencyUnreserve]
              simp [reservedOf, freeOf, mget_mset_self] at hdep ⊢
              refine ⟨hdep.1, ?_⟩
              rcases Nat.eq_zero_or_pos cfg.metadataDepositPerByte with
                h0 | h0
              · exact Or.inl h0
              · exact Or.inr (hdep.2 h0)

/-- Witness: C6 at the concrete mock state (custodian 1, caller 1 creates
an asset named [65] / [66]). -/
theorem C6_create_witness :
    exampleState.custodian = some 1 ∧
    runCommand mockCfg exampleState (.create (.signed 1) [65] [66]) =
      .ok (executeTx mockCfg exampleState (.create (.signed 1) [65] [66])) ∧
    ∃ id, mget exampleState.asset id = none ∧
      mget (executeTx mockCfg exampleState
          (.create (.signed 1) [65] [66])).asset id = some
        { owner := 1, issuer := 1, admin := 1, freezer := 1, supply := 0
          deposit := mockCfg.assetDeposit, min_balance := 1
          is_sufficient := false, accounts := 0, sufficients := 0
          approvals := 0, is_frozen := false } ∧
      (mget exampleState.metadata id = none →
        mget (executeTx mockCfg exampleState
            (.create (.signed 1) [65] [66])).metadata id = some
          { deposit := mockCfg.metadataDepositBase +
              mockCfg.metadataDepositPerByte * (2 : Nat)
            name := [65], symbol := [66], url := [], data_ipfs := []
            decimals := 9, is_frozen := false } ∧
        reservedOf (executeTx mockCfg exampleState
            (.create (.signed 1) [65] [66])) 1 =
          reservedOf exampleState 1 + mockCfg.assetDeposit +
            (mockCfg.metadataDepositBase +
              mockCfg.metadataDepositPerByte * (2 : Nat))) :=
  ⟨rfl, by decide,
    (C6_create mockCfg exampleState [65] [66] 1).2 1
      (executeTx mockCfg exampleState (.create (.signed 1) [65] [66]))
      rfl (by decide)⟩

/-- C7: along every executed command, the burn-certificate value stored
for any `(holder, asset)` pair never decreases — each dispatch either
leaves it unchanged or adds to it, saturating at the balance width (the
hypothesis says the stored value fits the 64-bit balance type, which
every stored certificate does). -/
theorem C7_cert_monotone (cfg : Config) (s : PalletState) (c : Command)
    (who : AccountId) (id : AssetId) (hb : certOf s who id ≤ BMAX) :
    certOf s who id ≤ certOf (executeTx cfg s c) who id := by
  unfold executeTx
  cases hrc : runCommand cfg s c with
  | error e => exact Nat.le_refl _
  | ok s2 =>
    obtain ⟨hbc | ⟨w, i, a, hbc⟩, _⟩ := runCommand_shape cfg s c s2 hrc
    · simp [certOf, hbc]
    · by_cases hk : ((who, id) : AccountId × AssetId) = (w, i)
      · injection hk with hw hi
        subst hw
        subst hi
        unfold certOf at hb ⊢
        rw [hbc, mget_mset_self]
        cases hmb : mget s.burnCertificate (who, id) with
        | none => simp
        | some b =>
          rw [hmb] at hb
          simp only [Option.getD_some] at hb ⊢
          exact satAdd_ge_left b a hb
      · unfold certOf
        rw [hbc, mget_mset_ne _ _ _ _ hk]

/-- Witness: C7 across a concrete reap-raising burn. -/
theorem C7_cert_monotone_witness :
    certOf exampleState 1 0 ≤ BMAX ∧
    certOf exampleState 1 0 ≤
      certOf (executeTx mockCfg exampleState (.burn (.signed 1) 0 1 95))
        1 0 :=
  ⟨by decide,
    C7_cert_monotone mockCfg exampleState (.burn (.signed 1) 0 1 95) 1 0
      (by decide)⟩

/-- C1 (amended): dispatch is atomic — a typed error leaves every storage
item and the native-currency ledger exactly as before (the transactional
wrapper discards the erroneous run), and a success commits the full effect
and emits at least one event, except for the no-event successes: a
zero-amount transfer (plain, keep-alive, forced or approved),
`transfer_ownership` to the current owner, `touch` and `refund`. -/
theorem C1_atomic_dispatch (cfg : Config) (s : PalletState) (c : Command) :
    (∀ e, runCommand cfg s c = .error e → executeTx cfg s c = s) ∧
    (∀ s2, runCommand cfg s c = .ok s2 →
      executeTx cfg s c = s2 ∧
      ∃ t, s2.events = s.events ++ t ∧ (t = [] → noopEvent s c)) := by
  constructor
  · intro e he
    simp [executeTx, he]
  · intro s2 h
    exact ⟨by simp [executeTx, h], (runCommand_shape cfg s c s2 h).2⟩

/-- Witness: C1 on a failing `mint` of an unknown asset (rollback) and on
a successful `freeze` (event emitted). -/
theorem C1_atomic_dispatch_witness :
    executeTx mockCfg exampleState (.mint (.signed 1) 5 10) =
      exampleState ∧
    (executeTx mockCfg exampleState (.freeze (.signed 1) 0 1) =
      executeTx mockCfg exampleState (.freeze (.signed 1) 0 1) ∧
    ∃ t, (executeTx mockCfg exampleState (.freeze (.signed 1) 0 1)).events
        = exampleState.events ++ t ∧
      (t = [] → noopEvent exampleState (.freeze (.signed 1) 0 1))) :=
  ⟨(C1_atomic_dispatch mockCfg exampleState (.mint (.signed 1) 5 10)).1
      .Unknown (by decide),
    (C1_atomic_dispatch mockCfg exampleState (.freeze (.signed 1) 0 1)).2
      (executeTx mockCfg exampleState (.freeze (.signed 1) 0 1))
      (by decide)⟩

/-- C1 counterexample: `transfer_ownership` of asset 0 to its current
owner 1 succeeds (the early `Ok(())` return in `lib.rs`) but deposits no
event — settling the claim's unconditional "on success ... an event is
emitted" in the negative. -/
theorem C1_no_event_on_self_ownership_transfer :
    runCommand mockCfg exampleState
      (.transfer_ownership (.signed 1) 0 1) = .ok exampleState ∧
    (executeTx mockCfg exampleState
      (.transfer_ownership (.signed 1) 0 1)).events =
      exampleState.events := by
  decide

/-! ## The dusting path of a transfer (for C5) -/

/-- On the dusting path (post-debit balance strictly below `min_balance`,
`keep_alive = false`, no frozen overlay), `prep_debit` raises the debit to
the source's whole balance. -/
theorem prep_debit_dust (s : PalletState) (id : AssetId) (src : AccountId)
    (amount debit : Nat) (d : AssetDetails) (acc : AssetAccount)
    (hd : mget s.asset id = some d)
    (hacc : mget s.account (id, src) = some acc)
    (hov : mget s.frozenOverlay (id, src) = none)
    (h0 : 0 < amount) (hle : amount ≤ acc.balance)
    (hreap : acc.balance - amount < d.min_balance)
    (h : prep_debit s id src amount
      { keep_alive := false, best_effort := false } = .ok debit) :
    debit = acc.balance := by
  unfold prep_debit reducible_balance at h
  simp only [hd, hacc, hov, bind, Except.bind, pure, Except.pure] at h
  repeat' split at h
  all_goals first
    | simp_all
    | (simp only [Except.ok.injEq] at h; omega)
    | omega

/-- With `keep_alive = true` the same dusting conditions make
`prep_debit` fail. -/
theorem prep_debit_keep_alive_fails (s : PalletState) (id : AssetId)
    (src : AccountId) (amount debit : Nat) (d : AssetDetails)
    (acc : AssetAccount)
    (hd : mget s.asset id = some d)
    (hacc : mget s.account (id, src) = some acc)
    (hov : mget s.frozenOverlay (id, src) = none)
    (h0 : 0 < amount)
    (hreap : acc.balance - amount < d.min_balance)
    (h : prep_debit s id src amount
      { keep_alive := true, best_effort := false } = .ok debit) :
    False := by
  unfold prep_debit reducible_balance at h
  simp only [hd, hacc, hov, bind, Except.bind, pure, Except.pure] at h
  repeat' split at h
  all_goals first
    | simp_all
    | (simp only [Except.ok.injEq] at h; omega)
    | omega

/-- A successful `can_increase` bounds the recipient's new balance by the
balance width. -/
theorem can_increase_ok (cfg : Config) (s : PalletState) (id : AssetId)
    (dst : AccountId) (amount : Nat) (inc : Bool)
    (h : (can_increase cfg s id dst amount inc).intoResult = .ok ()) :
    ∀ a, mget s.account (id, dst) = some a → a.balance + amount ≤ BMAX := by
  intro a ha
  unfold can_increase at h
  split at h
  · simp [DepositConsequence.intoResult] at h
  · split at h
    · simp [DepositConsequence.intoResult] at h
    · rw [ha] at h
      simp only [] at h
      split at h
      · assumption
      · simp [DepositConsequence.intoResult] at h

/-- What a successful `new_account` changes: reference counts only — the
account map, the hook log and the asset registry of the state are
untouched, and the returned details keep `supply` and `min_balance`. -/
theorem new_account_ok (cfg : Config) (s : PalletState) (who : AccountId)
    (d : AssetDetails) (md : Option Nat) (r : ExistenceReason)
    (d2 : AssetDetails) (s2 : PalletState)
    (h : new_account cfg s who d md = .ok (r, d2, s2)) :
    d2.supply = d.supply ∧ d2.min_balance = d.min_balance ∧
    s2.account = s.account ∧ s2.hooks = s.hooks ∧
    s2.asset = s.asset := by
  simp only [new_account, incConsumers, incSufficients] at h
  repeat' split at h
  all_goals try (exfalso; simp at h; done)
  all_goals
    simp only [Except.ok.injEq, Prod.mk.injEq] at h
  all_goals obtain ⟨hr, hd2, hs2⟩ := h
  all_goals rw [← hd2, ← hs2]
  all_goals exact ⟨rfl, rfl, rfl, rfl, rfl⟩

/-- What a successful `credit_dest` does to the destination: its balance
grows by exactly the credit (the saturation is inert under the
`can_increase` bound), every other account entry is untouched, and the
returned details keep `supply` and `min_balance`. -/
theorem credit_dest_ok (cfg : Config) (s : PalletState) (id : AssetId)
    (dst : AccountId) (credit : Nat) (d : AssetDetails)
    (d2 : AssetDetails) (s1 : PalletState)
    (hbound : ∀ a, mget s.account (id, dst) = some a →
      a.balance + credit ≤ BMAX)
    (h : credit_dest cfg s id dst credit d = .ok (d2, s1)) :
    d2.supply = d.supply ∧ d2.min_balance = d.min_balance ∧
    ((mget s1.account (id, dst)).map (fun a2 => a2.balance)).getD 0 =
      ((mget s.account (id, dst)).map (fun a2 => a2.balance)).getD 0 +
        credit ∧
    (∀ k, ¬ k = ((id, dst) : AssetId × AccountId) →
      mget s1.account k = mget s.account k) ∧
    s1.hooks = s.hooks ∧ s1.asset = s.asset := by
  unfold credit_dest at h
  split at h
  next destAcc hdest =>
    simp only [Except.ok.injEq, Prod.mk.injEq] at h
    obtain ⟨hd2, hs1⟩ := h
    have hb := hbound destAcc hdest
    rw [← hs1, ← hd2]
    refine ⟨rfl, rfl, ?_, ?_, rfl, rfl⟩
    · rw [mget_mset_self, hdest]
      simp [satAdd]
      omega
    · intro k hk
      exact mget_mset_ne _ _ _ _ hk
  next hdest =>
    split at h
    · simp at h
    next rn d2n s2n hna =>
      obtain ⟨hsup, hmin, hacc2, hhooks, hasset⟩ :=
        new_account_ok cfg s dst d none rn d2n s2n hna
      simp only [Except.ok.injEq, Prod.mk.injEq] at h
      obtain ⟨hd2, hs1⟩ := h
      rw [← hs1, ← hd2]
      refine ⟨hsup, hmin, ?_, ?_, hhooks, hasset⟩
      · rw [mget_mset_self, hdest]
        simp
      · intro k hk
        rw [mget_mset_ne _ _ _ _ hk, hacc2]

/-- The full characterisation of a successful transfer on the dusting
path: the debit is raised to the whole source balance, all of it is
credited to the destination (`burn_dust = false`), supply is preserved,
and the source is removed with a `died` hook for `Consumer`/`Sufficient`
reasons but kept at zero balance (no hook) for `DepositHeld`. -/
theorem do_transfer_dust (cfg : Config) (s : PalletState) (id : AssetId)
    (src dst : AccountId) (amount : Nat) (n : Nat) (s2 : PalletState)
    (d : AssetDetails) (acc : AssetAccount)
    (hd : mget s.asset id = some d)
    (hacc : mget s.account (id, src) = some acc)
    (hov : mget s.frozenOverlay (id, src) = none)
    (h0 : 0 < amount) (hle : amount ≤ acc.balance)
    (hreap : acc.balance - amount < d.min_balance)
    (hne : ¬ src = dst)
    (h : do_transfer cfg s id src dst amount none
      { keep_alive := false, best_effort := false, burn_dust := false } =
      .ok (n, s2)) :
    n = acc.balance ∧
    (∃ d2, mget s2.asset id = some d2 ∧ d2.supply = d.supply) ∧
    ((mget s2.account (id, dst)).map (fun a2 => a2.balance)).getD 0 =
      ((mget s.account (id, dst)).map (fun a2 => a2.balance)).getD 0 +
        acc.balance ∧
    (∀ dep, acc.reason = .depositHeld dep →
      mget s2.account (id, src) = some { acc with balance := 0 } ∧
      s2.hooks = s.hooks) ∧
    ((acc.reason = .consumer ∨ acc.reason = .sufficient) →
      mget s2.account (id, src) = none ∧
      s2.hooks = s.hooks ++ [(id, src)]) := by
  unfold do_transfer at h
  simp only [bind, Except.bind, pure, Except.pure, hd, hacc] at h
  split at h
  · rename_i hz
    exact absurd hz (by omega)
  split at h
  · simp at h
  next debit hpd =>
    have hdb : debit = acc.balance :=
      prep_debit_dust s id src amount debit d acc hd hacc hov h0 hle
        hreap hpd
    subst hdb
    simp only [Bool.false_eq_true, false_and, if_false, Nat.sub_zero] at h
    split at h
    · simp at h
    next u hci =>
      split at h
      · simp at h
      next p hcd =>
        obtain ⟨d2p, s1p⟩ := p
        simp only [] at h
        simp only [Except.ok.injEq, Prod.mk.injEq] at h
        obtain ⟨hn, hs2⟩ := h
        subst hn
        have hbound : ∀ a, mget s.account (id, dst) = some a →
            a.balance + acc.balance ≤ BMAX := by
          intro a ha
          exact can_increase_ok cfg s id dst acc.balance false
            (by cases u; exact hci) a ha
        obtain ⟨hsup, hmin, hdbal, hother, hhooks, hasset⟩ :=
          credit_dest_ok cfg s id dst acc.balance _ d2p s1p hbound hcd
        simp only [] at hsup hmin
        have hmin0 : 0 < d.min_balance := by omega
        have hmin2 : 0 < d2p.min_balance := by omega
        have hsrcne : ¬ ((id, src) : AssetId × AccountId) = (id, dst) := by
          intro hh
          injection hh with h1 h2
          exact hne h2
        have hdstne : ¬ ((id, dst) : AssetId × AccountId) = (id, src) := by
          intro hh
          injection hh with h1 h2
          exact hne h2.symm
        rw [← hs2]
        refine ⟨rfl, ?_, ?_, ?_, ?_⟩
        · cases hr : acc.reason with
          | depositHeld dep =>
            refine ⟨d2p, ?_, hsup⟩
            simp [settle_debit, Nat.sub_self, if_pos hmin2, hr, mget_mset_self]
          | consumer =>
            refine ⟨{ d2p with accounts := d2p.accounts - 1 }, ?_, hsup⟩
            simp [settle_debit, Nat.sub_self, if_pos hmin2, hr, mget_mset_self]
          | sufficient =>
            refine ⟨{ d2p with
              accounts := d2p.accounts - 1
              sufficients := d2p.sufficients - 1 }, ?_, hsup⟩
            simp [settle_debit, Nat.sub_self, if_pos hmin2, hr, mget_mset_self]
        · cases hr : acc.reason with
          | depositHeld dep =>
            simp only [settle_debit, Nat.sub_self, if_pos hmin2, hr]
            rw [mget_mset_ne _ _ _ _ hdstne]
            rw [hdbal]
          | consumer =>
            simp only [settle_debit, Nat.sub_self, if_pos hmin2, hr]
            rw [mget_mdel_ne _ _ _ hdstne]
            rw [hdbal]
          | sufficient =>
            simp only [settle_debit, Nat.sub_self, if_pos hmin2, hr]
            rw [mget_mdel_ne _ _ _ hdstne]
            rw [hdbal]
        · intro dep hr
          simp only [settle_debit, Nat.sub_self, if_pos hmin2, hr]
          exact ⟨by rw [mget_mset_self], hhooks⟩
        · intro hr
          rcases hr with hr | hr
          all_goals
            simp only [settle_debit, Nat.sub_self, if_pos hmin2, hr]
          all_goals exact ⟨mget_mdel_self _ _, by rw [hhooks]⟩

/-- C5 (amended): for a transfer whose post-debit source balance would
drop strictly below `min_balance` (no frozen overlay): with
`keep_alive = true` the call fails and dispatch leaves the state
untouched; with `keep_alive = false` (the `transfer` dispatchable, which
also sets `burn_dust = false`) the full removed balance — the amount plus
the dust — is credited to the destination and the supply is preserved,
and the source account is removed with a `died` hook exactly when its
existence reason is `Consumer` or `Sufficient`, while a `DepositHeld`
source is kept at zero balance with no `died` hook. -/
theorem C5_reap_on_dusting (cfg : Config) (s : PalletState) (id : AssetId)
    (src dst : AccountId) (amount : Nat) (d : AssetDetails)
    (acc : AssetAccount)
    (hd : mget s.asset id = some d)
    (hacc : mget s.account (id, src) = some acc)
    (hov : mget s.frozenOverlay (id, src) = none)
    (h0 : 0 < amount) (hle : amount ≤ acc.balance)
    (hreap : acc.balance - amount < d.min_balance)
    (hne : ¬ src = dst) :
    (∀ s2, ¬ runCommand cfg s
      (.transfer_keep_alive (.signed src) id dst amount) = .ok s2) ∧
    executeTx cfg s (.transfer_keep_alive (.signed src) id dst amount)
      = s ∧
    (∀ s2, runCommand cfg s (.transfer (.signed src) id dst amount) =
        .ok s2 →
      (∃ d2, mget s2.asset id = some d2 ∧ d2.supply = d.supply) ∧
      ((mget s2.account (id, dst)).map (fun a2 => a2.balance)).getD 0 =
        ((mget s.account (id, dst)).map (fun a2 => a2.balance)).getD 0 +
          acc.balance ∧
      (∀ dep, acc.reason = .depositHeld dep →
        mget s2.account (id, src) = some { acc with balance := 0 } ∧
        s2.hooks = s.hooks) ∧
      ((acc.reason = .consumer ∨ acc.reason = .sufficient) →
        mget s2.account (id, src) = none ∧
        s2.hooks = s.hooks ++ [(id, src)])) := by
  have hka : ∀ s2, ¬ runCommand cfg s
      (.transfer_keep_alive (.signed src) id dst amount) = .ok s2 := by
    intro s2 hok
    simp only [runCommand, bind, Except.bind, pure, Except.pure,
      ensureSigned] at hok
    split at hok
    · simp at hok
    next v heq =>
      obtain ⟨nk, s3⟩ := v
      unfold do_transfer at heq
      simp only [bind, Except.bind, pure, Except.pure] at heq
      split at heq
      · rename_i hz
        exact absurd hz (by omega)
      split at heq
      · simp at heq
      next debit hpd =>
        exact prep_debit_keep_alive_fails s id src amount debit d acc hd
          hacc hov h0 hreap hpd
  refine ⟨hka, ?_, ?_⟩
  · unfold executeTx
    cases hrc : runCommand cfg s
        (.transfer_keep_alive (.signed src) id dst amount) with
    | ok s2 => exact absurd hrc (hka s2)
    | error e => rfl
  · intro s2 h
    simp only [runCommand, bind, Except.bind, pure, Except.pure,
      ensureSigned] at h
    split at h
    · simp at h
    next v heq =>
      obtain ⟨nk, s3⟩ := v
      simp only [] at h
      simp only [Except.ok.injEq] at h
      subst h
      obtain ⟨_, hrest⟩ := do_transfer_dust cfg s id src dst amount nk s3
        d acc hd hacc hov h0 hle hreap hne heq
      exact hrest

/-- C5 counterexample (to the claim as stated): in `depositHeldState`,
account 1 holds 5 units of asset 0 for reason `DepositHeld`, the full
transfer of 5 to account 2 succeeds and dusts the source below
`min_balance = 1` with `keep_alive = false` — yet the source account is
NOT removed (it is kept at zero balance) and no `died` hook fires. -/
theorem C5_deposit_held_source_not_reaped :
    mget depositHeldState.account (0, 1) = some
      { balance := 5, is_frozen := false, reason := .depositHeld 10 } ∧
    (mget depositHeldState.asset 0).map (fun d => d.min_balance) =
      some 1 ∧
    runCommand mockCfg depositHeldState (.transfer (.signed 1) 0 2 5) =
      .ok (executeTx mockCfg depositHeldState
        (.transfer (.signed 1) 0 2 5)) ∧
    mget (executeTx mockCfg depositHeldState
        (.transfer (.signed 1) 0 2 5)).account (0, 1) = some
      { balance := 0, is_frozen := false, reason := .depositHeld 10 } ∧
    (executeTx mockCfg depositHeldState
      (.transfer (.signed 1) 0 2 5)).hooks = [] := by
  decide

/-- Witness: C5 (amended) at `depositHeldState` — the keep-alive variant
of the dusting transfer is rejected and dispatch leaves the state
untouched. -/
theorem C5_reap_on_dusting_witness :
    executeTx mockCfg depositHeldState
      (.transfer_keep_alive (.signed 1) 0 2 5) = depositHeldState :=
  (C5_reap_on_dusting mockCfg depositHeldState 0 1 2 5
    { owner := 1, issuer := 1, admin := 1, freezer := 1, supply := 5
      deposit := 0, min_balance := 1, is_sufficient := false
      accounts := 1, sufficients := 0, approvals := 0, is_frozen := false }
    { balance := 5, is_frozen := false, reason := .depositHeld 10 }
    (by decide) (by decide) (by decide) (by decide) (by decide)
    (by decide) (by decide)).2.1

/-! ## Supply-invariant toolkit (for C2) -/

theorem mget_mem {K V : Type} [DecidableEq K]
    {m : List (K × V)} {k : K} {v : V} (h : mget m k = some v) :
    (k, v) ∈ m := by
  induction m with
  | nil => simp [mget] at h
  | cons e t ih =>
    by_cases he : e.1 = k
    · simp only [mget, if_pos he, Option.some.injEq] at h
      rw [← he, ← h]
      exact List.mem_cons_self _ _
    · simp only [mget, if_neg he] at h
      exact List.mem_cons_of_mem _ (ih h)

theorem mset_isSome {K V : Type} [DecidableEq K]
    {m : List (K × V)} {k : K} (k2 : K) (v : V)
    (h : (mget m k).isSome) : (mget (mset m k2 v) k).isSome := by
  by_cases he : k = k2
  · rw [he, mget_mset_self]
    rfl
  · rw [mget_mset_ne _ _ _ _ he]
    exact h

theorem sumBal_zero_of_fresh (id : AssetId)
    (m : List ((AssetId × AccountId) × AssetAccount))
    (h : ∀ e ∈ m, ¬ e.1.1 = id) : sumBal id m = 0 := by
  induction m with
  | nil => rfl
  | cons e t ih =>
    rw [sumBal_cons, if_neg (h e (List.mem_cons_self _ _)), Nat.zero_add]
    exact ih (fun e2 he2 => h e2 (List.mem_cons_of_mem _ he2))

theorem le_sumBal (id : AssetId) (who : AccountId)
    (m : List ((AssetId × AccountId) × AssetAccount)) (a : AssetAccount)
    (hnd : keysND m) (h : mget m (id, who) = some a) :
    a.balance ≤ sumBal id m := by
  rw [sumBal_split id who m a hnd h]
  omega

/-- Writing account `(id, who)` moves the `id`-sum by the balance delta. -/
theorem sumBal_set_add (id : AssetId) (who : AccountId)
    (m : List ((AssetId × AccountId) × AssetAccount)) (a2 : AssetAccount)
    (hnd : keysND m) :
    sumBal id (mset m (id, who) a2) +
      ((mget m (id, who)).map (fun x => x.balance)).getD 0 =
    sumBal id m + a2.balance := by
  cases hg : mget m (id, who) with
  | none =>
    rw [sumBal_mset, mdel_of_none hg]
    simp
    omega
  | some a =>
    have hsplit := sumBal_split id who m a hnd hg
    rw [sumBal_mset]
    simp
    omega

/-- A successful `prep_debit` never debits more than the held balance,
and a debit that would land the account strictly below `min_balance`
has been raised to the whole balance. -/
theorem reducible_balance_le (s : PalletState) (id : AssetId)
    (who : AccountId) (ka : Bool) (r : Nat) (a : AssetAccount)
    (hacc : mget s.account (id, who) = some a)
    (h : reducible_balance s id who ka = .ok r) : r ≤ a.balance := by
  unfold reducible_balance at h
  simp only [hacc] at h
  repeat' split at h
  all_goals simp_all
  all_goals omega

theorem prep_debit_le (s : PalletState) (id : AssetId) (t : AccountId)
    (amount v : Nat) (f : DebitFlags) (d : AssetDetails) (a : AssetAccount)
    (hd : mget s.asset id = some d)
    (hacc : mget s.account (id, t) = some a)
    (h : prep_debit s id t amount f = .ok v) :
    v ≤ a.balance ∧ (a.balance - v < d.min_balance → a.balance = v) := by
  unfold prep_debit at h
  simp only [hd, hacc, bind, Except.bind, pure, Except.pure] at h
  split at h
  · simp at h
  next red hrb =>
    have hred : red ≤ a.balance :=
      reducible_balance_le s id t f.keep_alive red a hacc hrb
    repeat' split at h
    all_goals first
      | (simp_all; done)
      | (simp only [Except.ok.injEq] at h
         constructor <;> omega)
      | (constructor <;> omega)
      | (simp_all
         all_goals first
           | (constructor <;> omega)
           | omega)

/-- A successful supply-increasing `can_increase` bounds the new supply by
the balance width. -/
theorem can_increase_supply_ok (cfg : Config) (s : PalletState)
    (id : AssetId) (who : AccountId) (amount : Nat)
    (h : (can_increase cfg s id who amount true).intoResult = .ok ()) :
    ∀ d, mget s.asset id = some d → d.supply + amount ≤ BMAX := by
  intro d hd
  unfold can_increase at h
  rw [hd] at h
  simp only [] at h
  split at h
  · simp [DepositConsequence.intoResult] at h
  next hok =>
    by_contra hc
    exact hok ⟨by trivial, hc⟩

/-- The invariant survives overwriting one asset record with the same
supply. -/
theorem Inv_asset_set {am : List (AssetId × AssetDetails)}
    {acm : List ((AssetId × AccountId) × AssetAccount)}
    (hInv : InvOn am acm) (id : AssetId) (d d2 : AssetDetails)
    (hd : mget am id = some d) (hsup : d2.supply = d.supply) :
    InvOn (mset am id d2) acm := by
  obtain ⟨hnd, hmem, hsum⟩ := hInv
  refine ⟨hnd, ?_, ?_⟩
  · intro e he
    exact mset_isSome id d2 (hmem e he)
  · intro id2 dd hdd
    by_cases hi : id2 = id
    · subst hi
      rw [mget_mset_self] at hdd
      cases hdd
      rw [hsup]
      exact hsum id2 d hd
    · rw [mget_mset_ne _ _ _ _ hi] at hdd
      exact hsum id2 dd hdd

/-- The invariant survives installing a fresh asset with zero supply. -/
theorem Inv_asset_new {am : List (AssetId × AssetDetails)}
    {acm : List ((AssetId × AccountId) × AssetAccount)}
    (hInv : InvOn am acm) (id : AssetId) (d2 : AssetDetails)
    (hfresh : mget am id = none) (hsup : d2.supply = 0) :
    InvOn (mset am id d2) acm := by
  obtain ⟨hnd, hmem, hsum⟩ := hInv
  refine ⟨hnd, ?_, ?_⟩
  · intro e he
    exact mset_isSome id d2 (hmem e he)
  · intro id2 dd hdd
    by_cases hi : id2 = id
    · subst hi
      rw [mget_mset_self] at hdd
      cases hdd
      rw [hsup]
      refine (sumBal_zero_of_fresh id2 acm ?_).symm
      intro e he hee
      have h2 := hmem e he
      rw [hee, hfresh] at h2
      simp at h2
    · rw [mget_mset_ne _ _ _ _ hi] at hdd
      exact hsum id2 dd hdd

/-- The invariant survives overwriting one account entry with the same
balance (freeze / thaw). -/
theorem Inv_account_same_balance {am : List (AssetId × AssetDetails)}
    {acm : List ((AssetId × AccountId) × AssetAccount)}
    (hInv : InvOn am acm) (id : AssetId) (who : AccountId)
    (a a2 : AssetAccount) (ha : mget acm (id, who) = some a)
    (hbal : a2.balance = a.balance) :
    InvOn am (mset acm (id, who) a2) := by
  obtain ⟨hnd, hmem, hsum⟩ := hInv
  refine ⟨keysND_mset _ _ hnd, ?_, ?_⟩
  · intro e he
    rcases mem_mset he with he2 | he2
    · rw [he2]
      exact hmem ((id, who), a) (mget_mem ha)
    · exact hmem e he2
  · intro id2 dd hdd
    rw [hsum id2 dd hdd]
    by_cases hi : id = id2
    · subst hi
      have hadd := sumBal_set_add id who acm a2 hnd
      rw [ha] at hadd
      simp at hadd
      omega
    · exact (sumBal_mset_other id2 id who acm a2 hi).symm

/-- A stored balance (0 when the account is absent) never exceeds the
asset's balance sum. -/
theorem destBal_le_sumBal (id : AssetId) (b : AccountId)
    (m : List ((AssetId × AccountId) × AssetAccount)) (hnd : keysND m) :
    ((mget m (id, b)).map (fun x => x.balance)).getD 0 ≤ sumBal id m := by
  cases hg : mget m (id, b) with
  | none => simp
  | some a =>
    simp only [Option.map, Option.getD]
    exact le_sumBal id b m a hnd hg

/-- The invariant survives a joint write of one asset record and one of
its holder accounts, provided the supply moves by the balance delta. -/
theorem Inv_write {am : List (AssetId × AssetDetails)}
    {acm : List ((AssetId × AccountId) × AssetAccount)}
    (hInv : InvOn am acm) (id : AssetId) (b : AccountId)
    (d d2 : AssetDetails) (a2 : AssetAccount)
    (hdA : mget am id = some d)
    (hsup : d2.supply + ((mget acm (id, b)).map (fun x => x.balance)).getD 0
      = d.supply + a2.balance) :
    InvOn (mset am id d2) (mset acm (id, b) a2) := by
  obtain ⟨hnd, hmem, hsum⟩ := hInv
  have hdb := destBal_le_sumBal id b acm hnd
  have hadd := sumBal_set_add id b acm a2 hnd
  refine ⟨keysND_mset _ _ hnd, ?_, ?_⟩
  · intro e he
    rcases mem_mset he with he2 | he2
    · rw [he2]
      simp [mget_mset_self]
    · exact mset_isSome id d2 (hmem e he2)
  · intro id2 dd hdd
    by_cases hi : id2 = id
    · subst hi
      rw [mget_mset_self] at hdd
      cases hdd
      have hs := hsum id2 d hdA
      omega
    · rw [mget_mset_ne _ _ _ _ hi] at hdd
      rw [hsum id2 dd hdd]
      exact (sumBal_mset_other id2 id b acm a2
        (fun hh => hi hh.symm)).symm

/-- The invariant survives erasing one holder account together with
dropping its balance from the supply. -/
theorem Inv_erase {am : List (AssetId × AssetDetails)}
    {acm : List ((AssetId × AccountId) × AssetAccount)}
    (hInv : InvOn am acm) (id : AssetId) (b : AccountId)
    (d d2 : AssetDetails) (a : AssetAccount)
    (hdA : mget am id = some d)
    (haccA : mget acm (id, b) = some a)
    (hsup : d2.supply + a.balance = d.supply) :
    InvOn (mset am id d2) (mdel acm (id, b)) := by
  obtain ⟨hnd, hmem, hsum⟩ := hInv
  have hsplit := sumBal_split id b acm a hnd haccA
  refine ⟨keysND_mdel _ hnd, ?_, ?_⟩
  · intro e he
    exact mset_isSome id d2 (hmem e (mem_mdel he))
  · intro id2 dd hdd
    by_cases hi : id2 = id
    · subst hi
      rw [mget_mset_self] at hdd
      cases hdd
      have hs := hsum id2 d hdA
      omega
    · rw [mget_mset_ne _ _ _ _ hi] at hdd
      rw [hsum id2 dd hdd]
      exact (sumBal_mdel_other id2 b acm id
        (fun hh => hi hh.symm)).symm

/-- The invariant survives `settle_debit` when the new supply moves by
the balance delta and a reaping write-down has been raised to the whole
balance (which `prep_debit` guarantees). -/
theorem Inv_settle_debit (s : PalletState) (id : AssetId) (t : AccountId)
    (acc : AssetAccount) (newBal : Nat) (d2 : AssetDetails)
    (hnd : keysND s.account)
    (hmem : ∀ e ∈ s.account, (mget s.asset e.1.1).isSome)
    (hother : ∀ id2 d', ¬ id2 = id → mget s.asset id2 = some d' →
      d'.supply = sumBal id2 s.account)
    (hacc : mget s.account (id, t) = some acc)
    (hsup : d2.supply + acc.balance = sumBal id s.account + newBal)
    (hreap0 : newBal < d2.min_balance → newBal = 0) :
    Inv (settle_debit s id t acc newBal d2) := by
  have hble := le_sumBal id t s.account acc hnd hacc
  have hsplit := sumBal_split id t s.account acc hnd hacc
  have hkeep : InvOn (mset s.asset id d2)
      (mset s.account (id, t) { acc with balance := newBal }) := by
    have hadd := sumBal_set_add id t s.account
      { acc with balance := newBal } hnd
    rw [hacc] at hadd
    simp at hadd
    refine ⟨keysND_mset _ _ hnd, ?_, ?_⟩
    · intro e he
      rcases mem_mset he with he2 | he2
      · rw [he2]
        simp [mget_mset_self]
      · exact mset_isSome id d2 (hmem e he2)
    · intro id2 dd hdd
      by_cases hi : id2 = id
      · subst hi
        rw [mget_mset_self] at hdd
        cases hdd
        omega
      · rw [mget_mset_ne _ _ _ _ hi] at hdd
        rw [hother id2 dd hi hdd]
        exact (sumBal_mset_other id2 id t s.account _
          (fun hh => hi hh.symm)).symm
  have hdrop : ∀ d3 : AssetDetails, d3.supply = d2.supply → newBal = 0 →
      InvOn (mset s.asset id d3) (mdel s.account (id, t)) := by
    intro d3 hd3 h0
    refine ⟨keysND_mdel _ hnd, ?_, ?_⟩
    · intro e he
      exact mset_isSome id d3 (hmem e (mem_mdel he))
    · intro id2 dd hdd
      by_cases hi : id2 = id
      · subst hi
        rw [mget_mset_self] at hdd
        cases hdd
        omega
      · rw [mget_mset_ne _ _ _ _ hi] at hdd
        rw [hother id2 dd hi hdd]
        exact (sumBal_mdel_other id2 t s.account id
          (fun hh => hi hh.symm)).symm
  unfold settle_debit
  split
  next hlt =>
    have h0 : newBal = 0 := hreap0 hlt
    split
    · exact hkeep
    · exact hdrop { d2 with accounts := d2.accounts - 1 } rfl h0
    · exact hdrop { d2 with accounts := d2.accounts - 1
                            sufficients := d2.sufficients - 1 } rfl h0
  next hge =>
    exact hkeep

/-- The settled outcome of a successful debit preserves the invariant. -/
theorem Inv_decrease_core (s : PalletState) (id : AssetId) (t : AccountId)
    (amount v : Nat) (f : DebitFlags) (d : AssetDetails)
    (acc : AssetAccount) (hInv : Inv s)
    (hpd : prep_debit s id t amount f = .ok v)
    (hdA : mget s.asset id = some d)
    (haccA : mget s.account (id, t) = some acc) :
    Inv (settle_debit s id t acc (acc.balance - v)
      { d with supply := d.supply - v }) := by
  obtain ⟨hle2, hfull⟩ := prep_debit_le s id t amount v f d acc hdA haccA hpd
  obtain ⟨hnd, hmem, hsum⟩ := hInv
  have hble := le_sumBal id t s.account acc hnd haccA
  have hs := hsum id d hdA
  refine Inv_settle_debit s id t acc (acc.balance - v) _ hnd hmem
    (fun id2 d' _ hget => hsum id2 d' hget) haccA (by simp only []; omega)
    ?_
  intro hlt
  have hv := hfull hlt
  omega

theorem Inv_decrease_balance (s : PalletState) (id : AssetId)
    (t : AccountId) (amount : Nat) (f : DebitFlags) (ca : Option AccountId)
    (act : Nat) (s2 : PalletState) (hInv : Inv s)
    (h : decrease_balance s id t amount f ca = .ok (act, s2)) : Inv s2 := by
  unfold decrease_balance at h
  simp only [bind, Except.bind, pure, Except.pure] at h
  repeat' split at h
  all_goals try (exfalso; simp at h; done)
  all_goals
    simp only [Except.ok.injEq, Prod.mk.injEq] at h
  all_goals obtain ⟨h1, h2⟩ := h
  all_goals rw [← h2]
  all_goals
    first
      | exact hInv
      | (apply Inv_decrease_core <;> assumption)

theorem Inv_increase_existing (s : PalletState) (id : AssetId)
    (b : AccountId) (amount : Nat) (d : AssetDetails) (a : AssetAccount)
    (hInv : Inv s) (hdA : mget s.asset id = some d)
    (hsupb : d.supply + amount ≤ BMAX)
    (haccA : mget s.account (id, b) = some a) :
    Inv { s with
      asset := mset s.asset id { d with supply := satAdd d.supply amount }
      account := mset s.account (id, b)
        { a with balance := satAdd a.balance amount } } := by
  obtain ⟨hnd, hmem, hsum⟩ := hInv
  have hble := le_sumBal id b s.account a hnd haccA
  have hs := hsum id d hdA
  show InvOn _ _
  refine Inv_write ⟨hnd, hmem, hsum⟩ id b d _ _ hdA ?_
  rw [haccA]
  simp only [satAdd, Option.map, Option.getD]
  omega

theorem Inv_increase_fresh (cfg : Config) (s : PalletState) (id : AssetId)
    (b : AccountId) (amount : Nat) (d : AssetDetails)
    (r : ExistenceReason) (d2n : AssetDetails) (s2n : PalletState)
    (hInv : Inv s) (hdA : mget s.asset id = some d)
    (hsupb : d.supply + amount ≤ BMAX)
    (haccN : mget s.account (id, b) = none)
    (hna : new_account cfg s b { d with supply := satAdd d.supply amount }
      none = .ok (r, d2n, s2n)) :
    Inv { s2n with
      asset := mset s2n.asset id d2n
      account := mset s2n.account (id, b)
        { balance := amount, is_frozen := false, reason := r } } := by
  obtain ⟨hsupn, hminn, haccn, hhooksn, hassetn⟩ :=
    new_account_ok cfg s b _ none r d2n s2n hna
  show InvOn (mset s2n.asset id d2n) (mset s2n.account (id, b)
    { balance := amount, is_frozen := false, reason := r })
  rw [hassetn, haccn]
  refine Inv_write hInv id b d d2n _ hdA ?_
  rw [haccN]
  have h2 : d2n.supply = satAdd d.supply amount := hsupn
  simp only [h2, satAdd, Option.map, Option.getD]
  omega

theorem Inv_increase_balance (cfg : Config) (s : PalletState)
    (id : AssetId) (b : AccountId) (amount : Nat) (ci : Option AccountId)
    (s2 : PalletState) (hInv : Inv s)
    (h : increase_balance cfg s id b amount ci = .ok s2) : Inv s2 := by
  unfold increase_balance at h
  simp only [bind, Except.bind, pure, Except.pure] at h
  split at h
  · simp only [Except.ok.injEq] at h
    rw [← h]
    exact hInv
  next hnz =>
    split at h
    · simp at h
    next u hci =>
      split at h
      · simp at h
      next d hdA =>
        have hsupb : d.supply + amount ≤ BMAX :=
          can_increase_supply_ok cfg s id b amount
            (by cases u; exact hci) d hdA
        repeat' split at h
        all_goals try (exfalso; simp at h; done)
        all_goals simp only [Except.ok.injEq] at h
        all_goals rw [← h]
        all_goals
          first
            | (apply Inv_increase_existing <;> assumption)
            | (apply Inv_increase_fresh <;> assumption)

theorem credit_dest_account (cfg : Config) (s : PalletState)
    (id : AssetId) (dst : AccountId) (credit : Nat) (d : AssetDetails)
    (d2 : AssetDetails) (s1 : PalletState)
    (hbound : ∀ a, mget s.account (id, dst) = some a →
      a.balance + credit ≤ BMAX)
    (h : credit_dest cfg s id dst credit d = .ok (d2, s1)) :
    ∃ a2, s1.account = mset s.account (id, dst) a2 ∧
      a2.balance = ((mget s.account (id, dst)).map
        (fun x => x.balance)).getD 0 + credit := by
  unfold credit_dest at h
  split at h
  next destAcc hdest =>
    simp only [Except.ok.injEq, Prod.mk.injEq] at h
    obtain ⟨hd2, hs1⟩ := h
    rw [← hs1]
    refine ⟨_, rfl, ?_⟩
    rw [hdest]
    have hb := hbound destAcc hdest
    simp only [satAdd, Option.map, Option.getD]
    omega
  next hdest =>
    split at h
    · simp at h
    next rn d2n s2n hna =>
      obtain ⟨_, _, haccn, _, _⟩ :=
        new_account_ok cfg s dst d none rn d2n s2n hna
      simp only [Except.ok.injEq, Prod.mk.injEq] at h
      obtain ⟨hd2, hs1⟩ := h
      rw [← hs1]
      refine ⟨{ balance := credit, is_frozen := false, reason := rn },
        ?_, ?_⟩
      · show mset s2n.account (id, dst) _ = _
        rw [haccn]
      · rw [hdest]
        simp

theorem Inv_transfer_settle (cfg : Config) (s : PalletState)
    (id : AssetId) (src dst : AccountId) (amount debit : Nat)
    (ka be : Bool) (u : Unit) (d d2p : AssetDetails) (s1p : PalletState)
    (srcAcc : AssetAccount) (hInv : Inv s)
    (hdA : mget s.asset id = some d)
    (haccA : mget s.account (id, src) = some srcAcc)
    (hne : ¬ src = dst)
    (hpd : prep_debit s id src amount
      { keep_alive := ka, best_effort := be } = .ok debit)
    (hci : (can_increase cfg s id dst debit false).intoResult = .ok u)
    (hcd : credit_dest cfg s id dst debit d = .ok (d2p, s1p)) :
    Inv (settle_debit s1p id src srcAcc (srcAcc.balance - debit) d2p) := by
  obtain ⟨hnd, hmem, hsum⟩ := hInv
  obtain ⟨hdle, hdfull⟩ :=
    prep_debit_le s id src amount debit _ d srcAcc hdA haccA hpd
  have hbound : ∀ a, mget s.account (id, dst) = some a →
      a.balance + debit ≤ BMAX := fun a ha =>
    can_increase_ok cfg s id dst debit false (by cases u; exact hci) a ha
  obtain ⟨hsup2, hmin2, hdbal, hother2, hhooks2, hasset2⟩ :=
    credit_dest_ok cfg s id dst debit d d2p s1p hbound hcd
  obtain ⟨a2, hacc1, ha2bal⟩ :=
    credit_dest_account cfg s id dst debit d d2p s1p hbound hcd
  have hsum1 : sumBal id s1p.account = sumBal id s.account + debit := by
    rw [hacc1]
    have hadd := sumBal_set_add id dst s.account a2 hnd
    have hdb := destBal_le_sumBal id dst s.account hnd
    omega
  have hother1 : ∀ id2 d', ¬ id2 = id → mget s1p.asset id2 = some d' →
      d'.supply = sumBal id2 s1p.account := by
    intro id2 d' hne2 hget
    rw [hasset2] at hget
    rw [hsum id2 d' hget, hacc1]
    exact (sumBal_mset_other id2 id dst s.account a2
      (fun hh => hne2 hh.symm)).symm
  have hnd1 : keysND s1p.account := by
    rw [hacc1]
    exact keysND_mset _ _ hnd
  have hmem1 : ∀ e ∈ s1p.account, (mget s1p.asset e.1.1).isSome := by
    intro e he
    rw [hasset2]
    rw [hacc1] at he
    rcases mem_mset he with he2 | he2
    · rw [he2]
      simp [hdA]
    · exact hmem e he2
  have hacc1src : mget s1p.account (id, src) = some srcAcc := by
    rw [hacc1]
    rw [mget_mset_ne]
    · exact haccA
    · intro hh
      injection hh with hh1 hh2
      exact hne hh2
  have hds : d2p.supply = d.supply := hsup2
  have hs := hsum id d hdA
  have hble := le_sumBal id src s.account srcAcc hnd haccA
  refine Inv_settle_debit s1p id src srcAcc (srcAcc.balance - debit) d2p
    hnd1 hmem1 hother1 hacc1src (by omega) ?_
  intro hlt
  rw [hmin2] at hlt
  have hfull := hdfull hlt
  omega

theorem Inv_do_transfer (cfg : Config) (s : PalletState) (id : AssetId)
    (src dst : AccountId) (amount : Nat) (adm : Option AccountId)
    (ka be : Bool) (n : Nat) (s2 : PalletState) (hInv : Inv s)
    (h : do_transfer cfg s id src dst amount adm
      { keep_alive := ka, best_effort := be, burn_dust := false } =
      .ok (n, s2)) : Inv s2 := by
  unfold do_transfer at h
  simp only [bind, Except.bind, pure, Except.pure] at h
  split at h
  · simp only [Except.ok.injEq, Prod.mk.injEq] at h
    obtain ⟨h1, h2⟩ := h
    rw [← h2]
    exact hInv
  next hnz =>
    split at h
    · simp at h
    next debit hpd =>
      simp only [Bool.false_eq_true, false_and, if_false,
        Nat.sub_zero] at h
      split at h
      · simp at h
      next u hci =>
        split at h
        · simp at h
        next d hdA =>
          repeat' split at h
          all_goals try (exfalso; simp at h; done)
          all_goals simp only [Except.ok.injEq, Prod.mk.injEq] at h
          all_goals obtain ⟨h1, h2⟩ := h
          all_goals rw [← h2]
          all_goals
            first
              | exact hInv
              | (apply Inv_transfer_settle <;> assumption)

theorem Inv_do_touch (cfg : Config) (s : PalletState) (id : AssetId)
    (who : AccountId) (s2 : PalletState) (hInv : Inv s)
    (h : do_touch cfg s id who = .ok s2) : Inv s2 := by
  unfold do_touch at h
  simp only [new_account, bind, Except.bind, pure, Except.pure] at h
  split at h
  · simp at h
  next hfresh =>
    split at h
    · simp at h
    next d hdA =>
      split at h
      · simp at h
      next sr hr =>
        obtain ⟨hle, hsr⟩ := currencyReserve_ok hr
        subst hsr
        simp only [Except.ok.injEq] at h
        rw [← h]
        have haccN : mget s.account (id, who) = none := by
          cases hg : mget s.account (id, who) with
          | none => rfl
          | some a => rw [hg] at hfresh; simp at hfresh
        show InvOn _ _
        refine Inv_write hInv id who d _ _ hdA ?_
        rw [haccN]
        simp

theorem Inv_do_refund (s : PalletState) (id : AssetId) (who : AccountId)
    (ab : Bool) (s2 : PalletState) (hInv : Inv s)
    (h : do_refund s id who ab = .ok s2) : Inv s2 := by
  unfold do_refund at h
  simp only [bind, Except.bind, pure, Except.pure] at h
  split at h
  · simp at h
  next a haccA =>
    split at h
    all_goals try (exfalso; simp at h; done)
    next dep hreason =>
      split at h
      · simp at h
      next d hdA =>
        repeat' split at h
        all_goals try (exfalso; simp at h; done)
        all_goals simp only [Except.ok.injEq] at h
        all_goals rw [← h]
        all_goals {
          obtain ⟨hnd, hmem, hsum⟩ := hInv
          have hble := le_sumBal id who s.account a hnd haccA
          have hs := hsum id d hdA
          show InvOn _ _
          exact Inv_erase ⟨hnd, hmem, hsum⟩ id who d _ a hdA haccA
            (by simp only []; omega) }

theorem Inv_do_destroy (s : PalletState) (id : AssetId)
    (w : DestroyWitness) (mco : Option AccountId) (s2 : PalletState)
    (hInv : Inv s) (h : do_destroy s id w mco = .ok s2) : Inv s2 := by
  obtain ⟨hnd, hmem, hsum⟩ := hInv
  obtain ⟨_, _, _, hnone, haccount, hasset⟩ :=
    do_destroy_effects s id w mco s2 h
  unfold Inv InvOn
  rw [haccount, hasset]
  refine ⟨keysND_filter _ hnd, ?_, ?_⟩
  · intro e he
    have hmemf := List.mem_filter.mp he
    have hne : ¬ e.1.1 = id := by simpa using hmemf.2
    rw [mget_mdel_ne _ _ _ hne]
    exact hmem e hmemf.1
  · intro id2 dd hdd
    have hne : ¬ id2 = id := by
      intro hh
      rw [hh, mget_mdel_self] at hdd
      cases hdd
    rw [mget_mdel_ne _ _ _ hne] at hdd
    rw [hsum id2 dd hdd]
    exact (sumBal_filter_other id id2 s.account hne).symm

@[simp] theorem currencyRepatriateReserved_asset (s : PalletState)
    (w d : AccountId) (a : Nat) :
    (currencyRepatriateReserved s w d a).asset = s.asset := by
  unfold currencyRepatriateReserved
  split <;> rfl

@[simp] theorem currencyRepatriateReserved_account (s : PalletState)
    (w d : AccountId) (a : Nat) :
    (currencyRepatriateReserved s w d a).account = s.account := by
  unfold currencyRepatriateReserved
  split <;> rfl

/-- The invariant only reads the asset registry and the account ledger. -/
theorem Inv_of_eq {s s2 : PalletState} (hInv : Inv s)
    (ha : s2.asset = s.asset) (hb : s2.account = s.account) : Inv s2 := by
  unfold Inv InvOn at hInv ⊢
  rw [ha, hb]
  exact hInv

theorem Inv_do_burn (s : PalletState) (id : AssetId) (t : AccountId)
    (amount : Nat) (ca : Option AccountId) (f : DebitFlags) (act : Nat)
    (s3 : PalletState) (hInv : Inv s)
    (h : do_burn s id t amount ca f = .ok (act, s3)) : Inv s3 := by
  unfold do_burn at h
  simp only [bind, Except.bind, pure, Except.pure] at h
  split at h
  · simp at h
  next v heq =>
    obtain ⟨a1, s1⟩ := v
    have h1 : Inv s1 := Inv_decrease_balance s id t amount f ca a1 s1
      hInv heq
    simp only [] at h
    simp only [Except.ok.injEq, Prod.mk.injEq] at h
    obtain ⟨hh1, hh2⟩ := h
    rw [← hh2]
    exact Inv_of_eq h1 rfl rfl

theorem Inv_do_transfer_approved (cfg : Config) (s : PalletState)
    (id : AssetId) (o dl dst : AccountId) (amount : Nat)
    (s2 : PalletState) (hInv : Inv s)
    (h : do_transfer_approved cfg s id o dl dst amount = .ok s2) :
    Inv s2 := by
  unfold do_transfer_approved at h
  simp only [bind, Except.bind, pure, Except.pure] at h
  split at h
  · simp at h
  next ap hap =>
    split at h
    · simp at h
    · split at h
      · simp at h
      next v heq =>
        obtain ⟨n2, s2p⟩ := v
        have hs2p : Inv s2p := Inv_do_transfer cfg s id o dst amount none
          false false n2 s2p hInv heq
        simp only [] at h
        split at h
        · split at h
          next d hget =>
            simp only [Except.ok.injEq] at h
            rw [← h]
            show InvOn _ _
            exact Inv_asset_set hs2p id d _ hget rfl
          next hget =>
            simp only [Except.ok.injEq] at h
            rw [← h]
            exact Inv_of_eq hs2p rfl rfl
        · simp only [Except.ok.injEq] at h
          rw [← h]
          exact Inv_of_eq hs2p rfl rfl

/-- Every successful dispatch preserves the supply invariant. -/
theorem Inv_runCommand (cfg : Config) (s : PalletState) (c : Command)
    (s2 : PalletState) (hInv : Inv s)
    (h : runCommand cfg s c = .ok s2) : Inv s2 := by
  cases c with
  | set_custodian origin cu =>
    cases origin with
    | signed w => simp [runCommand, bind, Except.bind, ensureRoot] at h
    | root =>
      simp only [runCommand, bind, Except.bind, pure, Except.pure,
        ensureRoot, Except.ok.injEq] at h
      rw [← h]
      exact hInv
  | create origin name symbol =>
    cases origin with
    | root => simp [runCommand, bind, Except.bind, ensureSigned] at h
    | signed owner =>
      simp only [runCommand, bind, Except.bind, pure, Except.pure,
        ensureSigned] at h
      split at h
      · simp at h
      next admin hcu =>
        split at h
        · simp at h
        next v hg =>
          obtain ⟨idv, s1⟩ := v
          obtain ⟨hid, hs1, hfresh⟩ :=
            get_new_asset_id_effects s owner idv s1 hg
          subst hs1
          simp only [] at h
          split at h
          · simp at h
          next sr hr =>
            obtain ⟨hle, hsr⟩ := currencyReserve_ok hr
            subst hsr
            obtain ⟨_, _, _, hassetE, haccE⟩ :=
              do_set_metadata_effects cfg _ idv owner name symbol 9 s2 h
            refine Inv_of_eq ?_ hassetE haccE
            show InvOn _ _
            exact Inv_asset_new hInv idv _ hfresh rfl
  | set_project_data origin id url dataIpfs =>
    cases origin with
    | root => simp [runCommand, bind, Except.bind, ensureSigned] at h
    | signed caller =>
      simp only [runCommand, bind, Except.bind, pure, Except.pure,
        ensureSigned] at h
      obtain ⟨_, _, _, hassetE, haccE⟩ :=
        update_metadata_effects cfg s id caller url dataIpfs s2 h
      exact Inv_of_eq hInv hassetE haccE
  | force_create origin id owner isSuf minB =>
    cases origin with
    | signed w => simp [runCommand, bind, Except.bind, ensureRoot] at h
    | root =>
      simp only [runCommand, bind, Except.bind, pure, Except.pure,
        ensureRoot] at h
      unfold do_force_create at h
      split at h
      · simp at h
      next hfresh =>
        split at h
        · simp at h
        simp only [Except.ok.injEq] at h
        rw [← h]
        have hnone : mget s.asset id = none := by
          cases hg : mget s.asset id with
          | none => rfl
          | some d => rw [hg] at hfresh; simp at hfresh
        show InvOn _ _
        exact Inv_asset_new hInv id _ hnone rfl
  | destroy origin id w =>
    cases origin with
    | root =>
      simp only [runCommand] at h
      exact Inv_do_destroy s id w none s2 hInv h
    | signed who =>
      simp only [runCommand] at h
      exact Inv_do_destroy s id w (some who) s2 hInv h
  | mint origin id amount =>
    cases origin with
    | root => simp [runCommand, bind, Except.bind, ensureSigned] at h
    | signed o =>
      simp only [runCommand, bind, Except.bind, pure, Except.pure,
        ensureSigned] at h
      split at h
      · simp at h
      next d hd =>
        unfold do_mint at h
        simp only [bind, Except.bind, pure, Except.pure] at h
        split at h
        · simp at h
        next s1 hib =>
          simp only [Except.ok.injEq] at h
          rw [← h]
          exact Inv_of_eq
            (Inv_increase_balance cfg s id d.owner amount (some o) s1
              hInv hib) rfl rfl
  | burn origin id who amount =>
    cases origin with
    | root => simp [runCommand, bind, Except.bind, ensureSigned] at h
    | signed o =>
      simp only [runCommand, bind, Except.bind, pure, Except.pure,
        ensureSigned] at h
      split at h
      · simp at h
      next v heq =>
        obtain ⟨act, s3⟩ := v
        have h3 : Inv s3 :=
          Inv_do_burn s id who amount (some o) _ act s3 hInv heq
        simp only [] at h
        simp only [Except.ok.injEq] at h
        rw [← h]
        exact Inv_of_eq h3 rfl rfl
  | self_burn origin id amount =>
    cases origin with
    | root => simp [runCommand, bind, Except.bind, ensureSigned] at h
    | signed caller =>
      simp only [runCommand, bind, Except.bind, pure, Except.pure,
        ensureSigned] at h
      split at h
      · simp at h
      next v heq =>
        obtain ⟨act, s3⟩ := v
        have h3 : Inv s3 :=
          Inv_decrease_balance s id caller amount _ none act s3 hInv heq
        simp only [] at h
        simp only [Except.ok.injEq] at h
        rw [← h]
        exact Inv_of_eq h3 rfl rfl
  | transfer origin id target amount =>
    cases origin with
    | root => simp [runCommand, bind, Except.bind, ensureSigned] at h
    | signed o =>
      simp only [runCommand, bind, Except.bind, pure, Except.pure,
        ensureSigned] at h
      split at h
      · simp at h
      next v heq =>
        obtain ⟨n, s3⟩ := v
        simp only [] at h
        simp only [Except.ok.injEq] at h
        rw [← h]
        exact Inv_do_transfer cfg s id o target amount none false false
          n s3 hInv heq
  | transfer_keep_alive origin id target amount =>
    cases origin with
    | root => simp [runCommand, bind, Except.bind, ensureSigned] at h
    | signed o =>
      simp only [runCommand, bind, Except.bind, pure, Except.pure,
        ensureSigned] at h
      split at h
      · simp at h
      next v heq =>
        obtain ⟨n, s3⟩ := v
        simp only [] at h
        simp only [Except.ok.injEq] at h
        rw [← h]
        exact Inv_do_transfer cfg s id o target amount none true false
          n s3 hInv heq
  | force_transfer origin id src dst amount =>
    cases origin with
    | root => simp [runCommand, bind, Except.bind, ensureSigned] at h
    | signed o =>
      simp only [runCommand, bind, Except.bind, pure, Except.pure,
        ensureSigned] at h
      split at h
      · simp at h
      next v heq =>
        obtain ⟨n, s3⟩ := v
        simp only [] at h
        simp only [Except.ok.injEq] at h
        rw [← h]
        exact Inv_do_transfer cfg s id src dst amount (some o) false
          false n s3 hInv heq
  | freeze origin id who =>
    cases origin with
    | root => simp [runCommand, bind, Except.bind, ensureSigned] at h
    | signed o =>
      simp only [runCommand, bind, Except.bind, pure, Except.pure,
        ensureSigned] at h
      repeat' split at h
      all_goals try (exfalso; simp at h; done)
      simp only [Except.ok.injEq] at h
      rw [← h]
      show InvOn _ _
      apply Inv_account_same_balance hInv id who <;> first
        | assumption
        | rfl
  | thaw origin id who =>
    cases origin with
    | root => simp [runCommand, bind, Except.bind, ensureSigned] at h
    | signed o =>
      simp only [runCommand, bind, Except.bind, pure, Except.pure,
        ensureSigned] at h
      repeat' split at h
      all_goals try (exfalso; simp at h; done)
      simp only [Except.ok.injEq] at h
      rw [← h]
      show InvOn _ _
      apply Inv_account_same_balance hInv id who <;> first
        | assumption
        | rfl
  | freeze_asset origin id =>
    cases origin with
    | root => simp [runCommand, bind, Except.bind, ensureSigned] at h
    | signed o =>
      simp only [runCommand, bind, Except.bind, pure, Except.pure,
        ensureSigned] at h
      repeat' split at h
      all_goals try (exfalso; simp at h; done)
      simp only [Except.ok.injEq] at h
      rw [← h]
      show InvOn _ _
      apply Inv_asset_set hInv id <;> first
        | assumption
        | rfl
  | thaw_asset origin id =>
    cases origin with
    | root => simp [runCommand, bind, Except.bind, ensureSigned] at h
    | signed o =>
      simp only [runCommand, bind, Except.bind, pure, Except.pure,
        ensureSigned] at h
      repeat' split at h
      all_goals try (exfalso; simp at h; done)
      simp only [Except.ok.injEq] at h
      rw [← h]
      show InvOn _ _
      apply Inv_asset_set hInv id <;> first
        | assumption
        | rfl
  | transfer_ownership origin id owner =>
    cases origin with
    | root => simp [runCommand, bind, Except.bind, ensureSigned] at h
    | signed o =>
      simp only [runCommand, bind, Except.bind, pure, Except.pure,
        ensureSigned] at h
      repeat' split at h
      all_goals try (exfalso; simp at h; done)
      all_goals simp only [Except.ok.injEq] at h
      all_goals rw [← h]
      · exact hInv
      · show InvOn _ _
        rw [currencyRepatriateReserved_asset,
          currencyRepatriateReserved_account]
        apply Inv_asset_set hInv id <;> first
          | assumption
          | rfl
  | force_set_metadata origin id name symbol url dataIpfs dec isFrozen =>
    cases origin with
    | signed w => simp [runCommand, bind, Except.bind, ensureRoot] at h
    | root =>
      simp only [runCommand, bind, Except.bind, pure, Except.pure,
        ensureRoot] at h
      repeat' split at h
      all_goals try (exfalso; simp at h; done)
      simp only [Except.ok.injEq] at h
      rw [← h]
      exact hInv
  | force_clear_metadata origin id =>
    cases origin with
    | signed w => simp [runCommand, bind, Except.bind, ensureRoot] at h
    | root =>
      simp only [runCommand, bind, Except.bind, pure, Except.pure,
        ensureRoot] at h
      repeat' split at h
      all_goals try (exfalso; simp at h; done)
      simp only [Except.ok.injEq] at h
      rw [← h]
      exact hInv
  | force_asset_status origin id owner issuer admin freezer minB suf fr =>
    cases origin with
    | signed w => simp [runCommand, bind, Except.bind, ensureRoot] at h
    | root =>
      simp only [runCommand, bind, Except.bind, pure, Except.pure,
        ensureRoot] at h
      repeat' split at h
      all_goals try (exfalso; simp at h; done)
      simp only [Except.ok.injEq] at h
      rw [← h]
      show InvOn _ _
      apply Inv_asset_set hInv id <;> first
        | assumption
        | rfl
  | approve_transfer origin id delegate amount =>
    cases origin with
    | root => simp [runCommand, bind, Except.bind, ensureSigned] at h
    | signed owner =>
      simp only [runCommand, bind, Except.bind, pure, Except.pure,
        ensureSigned] at h
      unfold do_approve_transfer at h
      simp only [bind, Except.bind, pure, Except.pure] at h
      repeat' split at h
      all_goals try (exfalso; simp at h; done)
      all_goals simp only [Except.ok.injEq] at h
      all_goals rw [← h]
      all_goals
        first
          | exact hInv
          | (rename_i sr hr
             obtain ⟨hle, hsr⟩ := currencyReserve_ok hr
             subst hsr
             show InvOn _ _
             apply Inv_asset_set hInv id <;> first
               | assumption
               | rfl)
  | cancel_approval origin id delegate =>
    cases origin with
    | root => simp [runCommand, bind, Except.bind, ensureSigned] at h
    | signed owner =>
      simp only [runCommand, bind, Except.bind, pure, Except.pure,
        ensureSigned] at h
      repeat' split at h
      all_goals try (exfalso; simp at h; done)
      simp only [Except.ok.injEq] at h
      rw [← h]
      show InvOn _ _
      apply Inv_asset_set hInv id <;> first
        | assumption
        | rfl
  | force_cancel_approval origin id owner delegate =>
    cases origin with
    | root =>
      simp only [runCommand, bind, Except.bind, pure, Except.pure] at h
      repeat' split at h
      all_goals try (exfalso; simp at h; done)
      simp only [Except.ok.injEq] at h
      rw [← h]
      show InvOn _ _
      apply Inv_asset_set hInv id <;> first
        | assumption
        | rfl
    | signed o =>
      simp only [runCommand, bind, Except.bind, pure, Except.pure] at h
      repeat' split at h
      all_goals try (exfalso; simp at h; done)
      simp only [Except.ok.injEq] at h
      rw [← h]
      show InvOn _ _
      apply Inv_asset_set hInv id <;> first
        | assumption
        | rfl
  | transfer_approved origin id owner dst amount =>
    cases origin with
    | root => simp [runCommand, bind, Except.bind, ensureSigned] at h
    | signed delegate =>
      simp only [runCommand, bind, Except.bind, pure, Except.pure,
        ensureSigned] at h
      exact Inv_do_transfer_approved cfg s id owner delegate dst amount
        s2 hInv h
  | touch origin id =>
    cases origin with
    | root => simp [runCommand, bind, Except.bind, ensureSigned] at h
    | signed who =>
      simp only [runCommand, bind, Except.bind, pure, Except.pure,
        ensureSigned] at h
      exact Inv_do_touch cfg s id who s2 hInv h
  | refund origin id allowBurn =>
    cases origin with
    | root => simp [runCommand, bind, Except.bind, ensureSigned] at h
    | signed who =>
      simp only [runCommand, bind, Except.bind, pure, Except.pure,
        ensureSigned] at h
      exact Inv_do_refund s id who allowBurn s2 hInv h

/-- Transactional dispatch preserves the supply invariant. -/
theorem Inv_executeTx (cfg : Config) (s : PalletState) (c : Command)
    (hInv : Inv s) : Inv (executeTx cfg s c) := by
  unfold executeTx
  cases hrc : runCommand cfg s c with
  | error e => exact hInv
  | ok s2 => exact Inv_runCommand cfg s c s2 hInv hrc

/-- Every reachable state satisfies the supply invariant. -/
theorem Reachable_Inv (cfg : Config) (s : PalletState)
    (h : Reachable cfg s) : Inv s := by
  induction h with
  | init s ha hb =>
    refine ⟨?_, ?_, ?_⟩
    · rw [hb]
      simp [keysND]
    · intro e he
      rw [hb] at he
      simp at he
    · intro id d hd
      rw [ha] at hd
      simp [mget] at hd
  | step s c hs ih => exact Inv_executeTx cfg s c ih
  | env s s2 hs ha hb h3 h4 h5 h6 h7 ih => exact Inv_of_eq ih ha hb

/-- C2: in every reachable state, the stored supply of every registered
asset equals the sum of the balances of all accounts held for it. -/
theorem C2_supply_equals_sum (cfg : Config) (s : PalletState)
    (h : Reachable cfg s) (id : AssetId) (d : AssetDetails)
    (hd : mget s.asset id = some d) :
    d.supply = sumBal id s.account :=
  (Reachable_Inv cfg s h).2.2 id d hd

/-- Witness: C2 on the reachable state obtained from genesis by a
`force_create` and a `mint` of 7 units. -/
theorem C2_supply_equals_sum_witness :
    ({ owner := 1, issuer := 1, admin := 1, freezer := 1, supply := 7
       deposit := 0, min_balance := 1, is_sufficient := true
       accounts := 1, sufficients := 1, approvals := 0
       is_frozen := false } : AssetDetails).supply =
      sumBal 0 (executeTx mockCfg (executeTx mockCfg genesisState
        (.force_create .root 0 1 true 1))
        (.mint (.signed 1) 0 7)).account :=
  C2_supply_equals_sum mockCfg _
    (Reachable.step _ (.mint (.signed 1) 0 7)
      (Reachable.step _ (.force_create .root 0 1 true 1)
        (Reachable.init _ rfl rfl)))
    0 _ (by decide)

end CarbonAssets
